import Mathlib

/-!
A shallow embedding, in Lean 4, of the shader module system of the axis3d
repository (file `src/core/shader.js`): the `ShaderLib` fragment store and
compiled-text cache, the `ShaderLibPreprocessor` define table and directive
walker, and the per-instance `Shader` recompilation controller.  Definitions
follow the JavaScript source line by line; JavaScript strings are Lean
`String`s, JavaScript objects used as string maps are association lists, and
the unbounded mutual recursion of `compile`/`get`/`process`/`visit` is driven
by an explicit fuel parameter (the source has no cycle guard and would
recurse until resource exhaustion).
-/

set_option maxRecDepth 10000

/-- JavaScript whitespace characters (the `\s` class) restricted to the ASCII
range, which covers every string the shader library manipulates. -/
def jsWs (c : Char) : Bool :=
  c = ' ' || c = '\t' || c = '\n' || c = '\r' || c = '\x0b' || c = '\x0c'

/-- `String.trim` as JavaScript's `trim()`: drop leading and trailing
whitespace. -/
def jsTrimChars (l : List Char) : List Char :=
  ((l.dropWhile jsWs).reverse.dropWhile jsWs).reverse

/-- JavaScript `trim()` on strings. -/
def jsTrim (s : String) : String := ⟨jsTrimChars s.data⟩

/-- A JavaScript value as it may appear as a define value: a string, a
boolean, an integer number, or `null`/`undefined` (collapsed into one
constructor, as the source only ever tests them with `null ==`). -/
inductive JsVal where
  | str (s : String)
  | bool (b : Bool)
  | num (n : Int)
  | null
deriving DecidableEq, Repr

/-- Modelled from the spec: `DynamicValue` (defined in `src/core/gl.js`,
which is not part of the provided sources) backs the Fragment Store, the
Compiled-Text Cache and the Define Table; per the spec's data model these are
plain string-keyed mappings with `set` and `unset`, insertion-ordered like a
JavaScript object's own properties. -/
def Smap := List (String × String)
deriving DecidableEq, Repr

/-- Look a key up in a string map (JavaScript property read, `undefined`
becomes `none`). -/
def Smap.lookup : Smap → String → Option String
  | [], _ => none
  | (k, v) :: rest, key => if k = key then some v else Smap.lookup rest key

/-- Set a key in a string map (JavaScript property write: an existing key
keeps its position, a new key is appended). -/
def Smap.set : Smap → String → String → Smap
  | [], key, val => [(key, val)]
  | (k, v) :: rest, key, val =>
    if k = key then (k, val) :: rest else (k, v) :: Smap.set rest key val

/-- Remove a key from a string map (JavaScript `delete`). -/
def Smap.unset : Smap → String → Smap
  | [], _ => []
  | (k, v) :: rest, key =>
    if k = key then Smap.unset rest key else (k, v) :: Smap.unset rest key

/-- Truthiness of a JavaScript string-or-undefined: `undefined`, `null` and
the empty string are falsy. -/
def strTruthy : Option String → Bool
  | none => false
  | some s => !s.isEmpty

/-- Split a character list at every occurrence of a separator (the semantics
of JavaScript `String.prototype.split` with a single-character separator). -/
def splitChar (sep : Char) : List Char → List (List Char)
  | [] => [[]]
  | c :: rest =>
    if c = sep then [] :: splitChar sep rest
    else
      match splitChar sep rest with
      | [] => [[c]]
      | s :: ss => (c :: s) :: ss

/-- Join character lists with a separator character (JavaScript
`Array.prototype.join`). -/
def joinChar (sep : Char) : List (List Char) → List Char
  | [] => []
  | [s] => s
  | s :: rest => s ++ sep :: joinChar sep rest

/-- Test whether a pattern occurs at the head of a character list. -/
def charsHasPrefix : List Char → List Char → Bool
  | _, [] => true
  | [], _ :: _ => false
  | c :: rest, p :: ps => c = p && charsHasPrefix rest ps

/-- JavaScript `String.prototype.replace` with a plain-string pattern:
replace only the first occurrence; an empty pattern matches at index 0 and
merely inserts the replacement there. -/
def replaceFirstChars (l pat repl : List Char) : List Char :=
  match pat with
  | [] => repl ++ l
  | _ =>
    let rec go : List Char → List Char
      | [] => []
      | c :: rest =>
        if charsHasPrefix (c :: rest) pat then repl ++ (c :: rest).drop pat.length
        else c :: go rest
    go l

/-- JavaScript first-occurrence string replace lifted to `String`. -/
def jsReplaceFirst (s pat repl : String) : String :=
  ⟨replaceFirstChars s.data pat.data repl.data⟩

/-- Test whether a pattern occurs anywhere in a character list. -/
def charsContains (l pat : List Char) : Bool :=
  match l with
  | [] => pat.isEmpty
  | _ :: rest => charsHasPrefix l pat || charsContains rest pat

/-- Substring test on strings (used to state properties of compiled text). -/
def strContains (s pat : String) : Bool := charsContains s.data pat.data

/-! ## The glsl-tokenizer model

`ShaderLibPreprocessor.process` drives the npm package glsl-tokenizer.  The
walker in `shader.js` only distinguishes preprocessor tokens (a `#` in normal
mode up to the end of the line), line comments, block comments, and
"everything else" (which it pushes verbatim and later re-serializes by
concatenating token data), so runs of ordinary characters are chunked into
single tokens; the concatenation is identical to the fine-grained stream of
the real tokenizer.  Token line numbers are 1-based, counted at the start of
the token, and are used only in diagnostic include-stack strings. -/

/-- The token kinds the directive walker dispatches on. -/
inductive TokKind where
  | preproc
  | lineComment
  | blockComment
  | other
deriving DecidableEq, Repr

/-- A GLSL token: kind, raw text, and the line it starts on. -/
structure GlslToken where
  kind : TokKind
  data : String
  line : Nat
deriving DecidableEq, Repr

/-- Tokenizer scanning mode. -/
inductive TkMode where
  | normal
  | lineC
  | blockC
  | pre
deriving DecidableEq, Repr

/-- Emit a token for a non-empty buffer. -/
def tkFlush (kind : TokKind) (buf : List Char) (bufLine : Nat) (tail : List GlslToken) :
    List GlslToken :=
  if buf.isEmpty then tail else ⟨kind, ⟨buf⟩, bufLine⟩ :: tail

/-- One-pass scanner: input characters, mode, pending buffer, line at the
start of the pending buffer, current line. -/
def tkLoop : List Char → TkMode → List Char → Nat → Nat → List GlslToken
  | [], .normal, buf, bufLine, _ => tkFlush .other buf bufLine []
  | [], .lineC, buf, bufLine, _ => tkFlush .lineComment buf bufLine []
  | [], .blockC, buf, bufLine, _ => tkFlush .blockComment buf bufLine []
  | [], .pre, buf, bufLine, _ => tkFlush .preproc buf bufLine []
  | '/' :: '/' :: rest, .normal, buf, bufLine, line =>
    tkFlush .other buf bufLine (tkLoop rest .lineC ['/', '/'] line line)
  | '/' :: '*' :: rest, .normal, buf, bufLine, line =>
    tkFlush .other buf bufLine (tkLoop rest .blockC ['/', '*'] line line)
  | '#' :: rest, .normal, buf, bufLine, line =>
    tkFlush .other buf bufLine (tkLoop rest .pre ['#'] line line)
  | c :: rest, .normal, buf, bufLine, line =>
    if c = '\n' then
      tkLoop rest .normal (if buf.isEmpty then [c] else buf ++ [c])
        (if buf.isEmpty then line else bufLine) (line + 1)
    else
      tkLoop rest .normal (if buf.isEmpty then [c] else buf ++ [c])
        (if buf.isEmpty then line else bufLine) line
  | '\n' :: rest, .lineC, buf, bufLine, line =>
    tkFlush .lineComment buf bufLine (tkLoop rest .normal ['\n'] line (line + 1))
  | c :: rest, .lineC, buf, bufLine, line => tkLoop rest .lineC (buf ++ [c]) bufLine line
  | '*' :: '/' :: rest, .blockC, buf, bufLine, line =>
    tkFlush .blockComment (buf ++ ['*', '/']) bufLine (tkLoop rest .normal [] line line)
  | c :: rest, .blockC, buf, bufLine, line =>
    tkLoop rest .blockC (buf ++ [c]) bufLine (if c = '\n' then line + 1 else line)
  | '\n' :: rest, .pre, buf, bufLine, line =>
    tkFlush .preproc buf bufLine (tkLoop rest .normal ['\n'] line (line + 1))
  | c :: rest, .pre, buf, bufLine, line => tkLoop rest .pre (buf ++ [c]) bufLine line

/-- Tokenize a source string (glsl-tokenizer; the `version` option only
selects keyword tables, which the walker never consults). -/
def glslTokenize (s : String) : List GlslToken := tkLoop s.data .normal [] 1 1

/-- glsl-token-string: serialize a token stream by concatenating the data of
every token. -/
def glslTokensToString (toks : List GlslToken) : String :=
  ⟨(toks.map fun t => t.data.data).flatten⟩

/-! ## The node `path` functions used by `ShaderLib.resolve` and `process`
(POSIX semantics, as the `path` module provides in the browser bundle). -/

/-- Normalize path segments: drop empty and `.` segments, let `..` pop. -/
def normSegsAux : List (List Char) → List (List Char) → List (List Char)
  | acc, [] => acc
  | acc, s :: rest =>
    if s = [] ∨ s = ['.'] then normSegsAux acc rest
    else if s = ['.', '.'] then normSegsAux acc.dropLast rest
    else normSegsAux (acc ++ [s]) rest

/-- Build a normalized absolute path from raw characters. -/
def normAbsChars (l : List Char) : List Char :=
  '/' :: joinChar '/' (normSegsAux [] (splitChar '/' l))

/-- Two-argument `path.resolve(a, b)` where `a` is already absolute (the only
shape the shader library produces). -/
def posixResolve2 (a b : String) : String :=
  if b.data.head? = some '/' then ⟨normAbsChars b.data⟩
  else ⟨normAbsChars (a.data ++ '/' :: b.data)⟩

/-- The extension of a basename: from the last dot to the end, empty when
there is no dot or only a leading dot. -/
def extOfBase (base : List Char) : String :=
  if base = ['.'] ∨ base = ['.', '.'] then ""
  else if (base.reverse.takeWhile (· ≠ '.')).length = base.reverse.length then ""
  else if base.length - 1 - (base.reverse.takeWhile (· ≠ '.')).length = 0 then ""
  else ⟨'.' :: (base.reverse.takeWhile (· ≠ '.')).reverse⟩

/-- `path.extname`: the extension of the basename, empty when the basename
has no dot or only a leading dot. -/
def jsExtname (p : String) : String :=
  extOfBase ((splitChar '/' p.data).getLastD [])

/-- `path.dirname` (POSIX). -/
def jsDirname (p : String) : String :=
  let l := p.data
  let hasRoot := l.head? = some '/'
  let l1 := (l.reverse.dropWhile (· = '/')).reverse
  if l1 = [] then (if hasRoot then "/" else ".")
  else
    let afterSlash := l1.reverse.takeWhile (· ≠ '/')
    if afterSlash.length = l1.length then "."
    else
      let dir := l1.take (l1.length - afterSlash.length - 1)
      if dir = [] then "/" else ⟨dir⟩

/-- `ShaderLib.resolve(path, root)`: make `root` absolute, strip the first
occurrence of the extension from `path`, resolve against the root and drop
the leading slash. -/
def shaderLibResolve (path : String) (root : String) : String :=
  ⟨(posixResolve2 (posixResolve2 "/" root)
      (jsReplaceFirst path (jsExtname path) "")).data.drop 1⟩

/-! ## `ShaderLib.hash` -/

/-- UTF-16 code-unit sum contribution of one character (`charCodeAt` walks
code units; every string in this development is ASCII, where this is the
code point itself). -/
def jsCharUnitSum (c : Char) : Nat :=
  if c.toNat < 0x10000 then c.toNat
  else 0xD800 + (c.toNat - 0x10000) / 0x400 + (0xDC00 + (c.toNat - 0x10000) % 0x400)

/-- The additive character-sum underlying `ShaderLib.hash`. -/
def jsHashNum (s : String) : Nat := (s.data.map jsCharUnitSum).sum

/-- `ShaderLib.hash(source)`: sum of the character codes rendered in
base 16 (`Number.prototype.toString(16)`, lowercase). -/
def jsHash (s : String) : String := ⟨Nat.toDigits 16 (jsHashNum s)⟩

/-! ## The literal regular expressions of `shader.js`, as executable matchers -/

/-- Match the tail `.*\n#endif\n?$` of the SHADER_NAME block regex from the
position after `#define SHADER_NAME\s?`: a dot-free-of-newlines run, a
newline, `#endif`, an optional newline, end of string. -/
def snbTail (l : List Char) : Bool :=
  let rest := l.dropWhile (· ≠ '\n')
  match rest with
  | '\n' :: r2 =>
    charsHasPrefix r2 "#endif".data && (r2.drop 6 = [] || r2.drop 6 = ['\n'])
  | _ => false

/-- Match `\s?` then the continuation: greedy, with backtracking. -/
def snbOptWs (cont : List Char → Bool) (l : List Char) : Bool :=
  match l with
  | c :: rest => (jsWs c && cont rest) || cont l
  | [] => cont l

/-- Match `#define SHADER_NAME\s?.*\n#endif\n?$` at the head of `l`. -/
def snbFromDefine (l : List Char) : Bool :=
  charsHasPrefix l "#define SHADER_NAME".data && snbOptWs snbTail (l.drop 19)

/-- Match `#ifndef SHADER_NAME\s?\n#define SHADER_NAME...` at the head. -/
def snbCore (l : List Char) : Bool :=
  charsHasPrefix l "#ifndef SHADER_NAME".data &&
    snbOptWs
      (fun r => match r with
        | '\n' :: r2 => snbFromDefine r2
        | _ => false)
      (l.drop 19)

/-- Match the full SHADER_NAME block regex
`\s?#ifndef SHADER_NAME\s?\n#define SHADER_NAME\s?.*\n#endif\n?$` at the
head of `l` (the `$` anchor means the match must reach the end of the
string, which `snbTail` enforces). -/
def snbAt (l : List Char) : Bool := snbOptWs snbCore l

/-- Delete the leftmost (and, because of the `$` anchor, only) occurrence of
the SHADER_NAME block. -/
def stripSnb : List Char → List Char
  | [] => []
  | c :: rest => if snbAt (c :: rest) then [] else c :: stripSnb rest

/-- `ShaderLib.injectShaderNameDefine(name, source)`: despite its name it
only strips a trailing `#ifndef SHADER_NAME ... #endif` block from the
source; the `name` argument is unused by the implementation. -/
def injectShaderNameDefine (name source : String) : String :=
  let _ := name
  ⟨stripSnb source.data⟩

/-- Lowercase ASCII letter. -/
def isLowerAZ (c : Char) : Bool := 'a' ≤ c && c ≤ 'z'

/-- Letter usable in the second identifier of the precision regex
(`[a-z|A-Z]`, i.e. letters or a literal pipe). -/
def isPrecName (c : Char) : Bool := isLowerAZ c || ('A' ≤ c && c ≤ 'Z') || c = '|'

/-- Match the body of the precision regex
`precision\s+([a-z]+)\s+([a-z|A-Z]+)[\s+]?;[\s|\t|\r]?` at the head of `l`,
returning what follows the match. -/
def precCore (l : List Char) : Option (List Char) :=
  if charsHasPrefix l "precision".data then
    let r := l.drop 9
    let ws1 := r.takeWhile jsWs
    if ws1.isEmpty then none
    else
      let r1 := r.dropWhile jsWs
      let id1 := r1.takeWhile isLowerAZ
      if id1.isEmpty then none
      else
        let r2 := r1.dropWhile isLowerAZ
        let ws2 := r2.takeWhile jsWs
        if ws2.isEmpty then none
        else
          let r3 := r2.dropWhile jsWs
          let id2 := r3.takeWhile isPrecName
          if id2.isEmpty then none
          else
            let r4 := r3.dropWhile isPrecName
            let afterSemi : Option (List Char) :=
              match r4 with
              | ';' :: r5 => some r5
              | c :: ';' :: r5 => if jsWs c || c = '+' then some r5 else none
              | _ => none
            match afterSemi with
            | none => none
            | some r5 =>
              match r5 with
              | c :: r6 => if jsWs c || c = '|' then some r6 else some r5
              | [] => some r5
  else none

/-- Match the full precision regex, including the optional leading
`[\s|\t]?` character, at the head of `l`. -/
def precAt (l : List Char) : Option (List Char) :=
  match l with
  | c :: rest => if jsWs c || c = '|' then precCore rest else precCore l
  | [] => none

/-- Global removal of every precision-regex match (JavaScript
`replace(regex, '')` with the `g` flag: scan left to right, resume after
each match).  Fuelled by the input length: every step consumes at least one
character. -/
def remPrecLoop : Nat → List Char → List Char
  | 0, l => l
  | _ + 1, [] => []
  | n + 1, c :: rest =>
    match precAt (c :: rest) with
    | some r => remPrecLoop n r
    | none => c :: remPrecLoop n rest

/-- `ShaderLib.injectShaderPrecision(source)`: delete the first occurrence
of the canonical header verbatim, delete every other precision declaration
by regex, then prepend the canonical header on its own line. -/
def injectShaderPrecision (precision source : String) : String :=
  let header := "precision " ++ precision ++ ";"
  let s1 := jsReplaceFirst source header ""
  let s2 : String := ⟨remPrecLoop (s1.data.length + 1) s1.data⟩
  header ++ "\n" ++ s2

/-- The final line pass of `ShaderLib.compile`: split on newlines, drop
empty lines, append an extra newline to single-character lines, join. -/
def compileLineFilter (s : String) : String :=
  let ls := (splitChar '\n' s.data).filter (fun l => l.length ≠ 0)
  let ls2 := ls.map (fun l => if l.length = 1 then l ++ ['\n'] else l)
  ⟨joinChar '\n' ls2⟩

/-- First match of `/(#[a-z]+)\s?/` in a token's data, trimmed: the `#`
followed by its lowercase directive name, or `none` when the data has no
`#` immediately followed by a lowercase letter (in which case the source
crashes reading `[0]` of `null`). -/
def findDirective (data : String) : Option String :=
  let rec go : List Char → Option String
    | [] => none
    | '#' :: rest =>
      let run := rest.takeWhile isLowerAZ
      if run.isEmpty then go rest else some ⟨'#' :: run⟩
    | _ :: rest => go rest
  go data.data

/-- Capture group of the first match of `/#define[\s]+(.*)/`: everything
after the first `#define` and its maximal whitespace run. -/
def defineRemainder (data : String) : Option String :=
  let rec go : List Char → Option String
    | [] => none
    | c :: rest =>
      if charsHasPrefix (c :: rest) "#define".data &&
          (match (c :: rest).drop 7 with
            | w :: _ => jsWs w
            | [] => false) then
        some ⟨((c :: rest).drop 7).dropWhile jsWs⟩
      else go rest
  go data.data

/-- Capture group of the first match of the include regex
`/[\s|\t]?#include[\s]+([<|"]?.*[>|"]?)$/`: everything after the first
`#include` and its maximal whitespace run (because all three capture pieces
are optional or starred, the greedy whitespace run determines the capture;
the optional leading character never changes it).  `none` when there is no
`#include` followed by whitespace, in which case the source crashes
destructuring the `null` match. -/
def includeArg (data : String) : Option String :=
  let rec go : List Char → Option String
    | [] => none
    | c :: rest =>
      if charsHasPrefix (c :: rest) "#include".data &&
          (match (c :: rest).drop 8 with
            | w :: _ => jsWs w
            | [] => false) then
        some ⟨((c :: rest).drop 8).dropWhile jsWs⟩
      else go rest
  go data.data

/-- First-match replace of `/^["|<](.*)["|>]/` with the capture group: when
the argument starts with one of `"` `|` `<` and a later character is one of
`"` `|` `>`, delete the opening character and the last (greedy) such closing
character; otherwise leave the argument unchanged. -/
def stripIncludeDelims (arg : String) : String :=
  match arg.data with
  | [] => arg
  | c :: rest =>
    if c = '"' ∨ c = '|' ∨ c = '<' then
      match (rest.reverse).findIdx? (fun d => d = '"' ∨ d = '|' ∨ d = '>') with
      | none => arg
      | some k =>
        let j := rest.length - 1 - k
        ⟨rest.take j ++ rest.drop (j + 1)⟩
    else arg

/-! ## `ShaderLib` and `ShaderLibPreprocessor` state -/

/-- `kDefaultShaderLibPrecision`. -/
def kDefaultShaderLibPrecision : String := "mediump float"

/-- `kDefaultShaderLibVersion`. -/
def kDefaultShaderLibVersion : String := "100"

/-- `kAnonymousShaderName`. -/
def kAnonymousShaderName : String := "<anonymous>"

/-- The state owned by a `ShaderLib` together with its
`ShaderLibPreprocessor` (whose only state is the define table
`this.defines`): the Fragment Store, the Compiled-Text Cache, the Define
Table, the precision and version strings, and the middleware chain.
Middleware functions receive `(shaderLib, preprocessor, src, opts)` in the
source and may return a replacement text or nothing (`coalesce` keeps the
input); no claim registers middleware, so they are modelled as plain
text-to-optional-text functions. -/
structure ShaderLib where
  store : Smap
  cache : Smap
  preprocDefines : Smap
  precision : String
  version : String
  middleware : List (String → Option String)

/-- A `ShaderLib` as constructed with no options and no bundled `libglsl`
fragments (the real constructor seeds the store with the bundled library;
every claim fixes the relevant Store contents explicitly via `add`). -/
def ShaderLib.empty : ShaderLib :=
  { store := [], cache := [], preprocDefines := []
    precision := kDefaultShaderLibPrecision, version := kDefaultShaderLibVersion
    middleware := [] }

/-- Collapse every run of slashes to a single slash
(`name.replace(/[\/]+/g, '/')`). -/
def collapseSlashesAux : List Char → Bool → List Char
  | [], _ => []
  | c :: rest, prevSlash =>
    if c = '/' then
      if prevSlash then collapseSlashesAux rest true
      else '/' :: collapseSlashesAux rest true
    else c :: collapseSlashesAux rest false

/-- Slash-collapsing on strings. -/
def collapseSlashes (s : String) : String := ⟨collapseSlashesAux s.data false⟩

/-- `ShaderLib.add(name, source)` with two strings: normalize the path and
set the fragment in the Store (the nested-object overload walks the object
and ends in this same call for every leaf). -/
def ShaderLib.add (lib : ShaderLib) (name source : String) : ShaderLib :=
  { lib with store := lib.store.set (collapseSlashes name) source }

/-- JavaScript `String(value)` for the values a define can hold after the
boolean-to-number rewrite. -/
def jsValToString : JsVal → Option String
  | .str s => some s
  | .num n => some (toString n)
  | .bool b => some (if b then "true" else "false")
  | .null => none

/-- `ShaderLibPreprocessor.define(key, value)` for a string key: booleans
become the numbers 1/0, `null`/`undefined` values are skipped entirely, any
other value is stringified and stored only when it differs from the value
currently under `key`; the returned boolean reports whether the table
changed. -/
def preprocessorDefineKV (defs : Smap) (key : String) (value : JsVal) : Smap × Bool :=
  let value := match value with
    | .bool true => .num 1
    | .bool false => .num 0
    | v => v
  match jsValToString value with
  | none => (defs, false)
  | some v =>
    if defs.lookup key ≠ some v then (defs.set key v, true) else (defs, false)

/-- `ShaderLibPreprocessor.define(map)`: apply every entry (the source maps
`define` over all keys and then `.some`s the results, so every entry is
applied) and report whether any entry changed the table. -/
def preprocessorDefineMap (defs : Smap) (m : List (String × JsVal)) : Smap × Bool :=
  m.foldl
    (fun acc kv =>
      let r := preprocessorDefineKV acc.1 kv.1 kv.2
      (r.1, acc.2 || r.2))
    (defs, false)

/-- `ShaderLibPreprocessor.undefine(key)`. -/
def preprocessorUndefine (defs : Smap) (key : String) : Smap := defs.unset key

/-! ## Models of the two npm text passes `process` and `preprocess` rely on -/

/-- Models the npm package glsl-inject-defines, called by
`ShaderLibPreprocessor.process` as `injectDefines(source, {...defines})`:
for an empty define map the token round-trip returns the source unchanged
and injects nothing; for a non-empty map one `#define K V` line per entry is
injected at the top of the file.  (The real package places the block after
any leading `#version`/`#extension` directives; every claim exercises this
either with an empty map or without inspecting the compiled text, so the
insertion point is immaterial.) -/
def injectDefinesModel (source : String) (defs : Smap) : String :=
  match defs with
  | [] => source
  | _ =>
    ⟨joinChar '\n'
        ((defs : List (String × String)).map fun kv => ("#define " ++ kv.1 ++ " " ++ kv.2).data)
      ++ '\n' :: source.data⟩

/-- Identifier characters for macro substitution. -/
def isIdentChar (c : Char) : Bool :=
  ('a' ≤ c && c ≤ 'z') || ('A' ≤ c && c ≤ 'Z') || ('0' ≤ c && c ≤ '9') || c = '_'

/-- Replace a maximal identifier run by its macro expansion, if any. -/
def preprSubstFlush (defs : Smap) (cur : List Char) : List Char :=
  if cur.isEmpty then []
  else
    match defs.lookup ⟨cur⟩ with
    | some v => v.data
    | none => cur

/-- Substitute macros in one line, walking identifier runs. -/
def preprSubstAux (defs : Smap) : List Char → List Char → List Char
  | [], cur => preprSubstFlush defs cur
  | c :: rest, cur =>
    if isIdentChar c then preprSubstAux defs rest (cur ++ [c])
    else preprSubstFlush defs cur ++ c :: preprSubstAux defs rest []

/-- Parse `#define NAME value` / `#define NAME` after the directive word. -/
def preprParseDefine (l : List Char) : String × String :=
  let r := l.dropWhile jsWs
  let name := r.takeWhile isIdentChar
  let val := jsTrimChars (r.dropWhile isIdentChar)
  (⟨name⟩, ⟨val⟩)

/-- One step of the prepr line walk: the macro table, the emit stack of the
open conditional blocks, and the current line produce the updated state and
the emitted line, if any. -/
def preprLine (defs : Smap) (stack : List Bool) (l : List Char) :
    Smap × List Bool × Option (List Char) :=
  let t := l.dropWhile jsWs
  let emitting := stack.all id
  if charsHasPrefix t "#define".data then
    if emitting then
      let kv := preprParseDefine (t.drop 7)
      (defs.set kv.1 kv.2, stack, none)
    else (defs, stack, none)
  else if charsHasPrefix t "#undef".data then
    if emitting then (defs.unset ⟨jsTrimChars (t.drop 6)⟩, stack, none)
    else (defs, stack, none)
  else if charsHasPrefix t "#ifdef".data then
    (defs, ((defs.lookup ⟨jsTrimChars (t.drop 6)⟩).isSome) :: stack, none)
  else if charsHasPrefix t "#ifndef".data then
    (defs, ((defs.lookup ⟨jsTrimChars (t.drop 7)⟩).isNone) :: stack, none)
  else if charsHasPrefix t "#else".data then
    (defs, (match stack with | b :: bs => (!b) :: bs | [] => []), none)
  else if charsHasPrefix t "#endif".data then
    (defs, stack.tail, none)
  else if emitting then (defs, stack, some (preprSubstAux defs l []))
  else (defs, stack, none)

/-- Fold `preprLine` over all lines. -/
def preprLines (defs : Smap) (stack : List Bool) : List (List Char) → List (List Char)
  | [] => []
  | l :: rest =>
    match preprLine defs stack l with
    | (defs', stack', some out) => out :: preprLines defs' stack' rest
    | (defs', stack', none) => preprLines defs' stack' rest

/-- Models the npm package prepr, called by `ShaderLib.preprocess` as
`preprocess(source, defines)`: a macro-expanding GLSL preprocessor.  The
model processes `#define`/`#undef`/`#ifdef`/`#ifndef`/`#else`/`#endif`
line directives (consuming them) and substitutes macros in the remaining
lines; every claim exercises it on sources whose directives and macros are
trivial, where this subset is exact.  (Function-like macros and `#if`
expressions of the real package are not reached by any claim.) -/
def preprModel (source : String) (defs : Smap) : String :=
  ⟨joinChar '\n' (preprLines defs [] (splitChar '\n' source.data))⟩

/-- `ShaderLib.preprocess(source)`: run prepr with the library's define
table, then drop every line that is empty or all-whitespace. -/
def ShaderLib.preprocess (lib : ShaderLib) (source : String) : String :=
  let s := preprModel source lib.preprocDefines
  ⟨joinChar '\n' ((splitChar '\n' s.data).filter (fun l => !(l.all jsWs)))⟩

/-! ## The mutual `compile` / `get` / `process` / `visit` recursion

`ShaderLib.compile` invokes `ShaderLibPreprocessor.process`, whose `visit`
walker calls `ShaderLib.get` on every include, which re-enters
`ShaderLib.compile` for the included fragment — an unguarded mutual
recursion (a self-including fragment recurses until resource exhaustion).
It is modelled as one structurally fuelled interpreter over a call type;
each recursive step burns one unit of fuel, and exhaustion models the
stack overflow of the real system. -/

/-- Thrown JavaScript exceptions of the shader module. -/
inductive JsErr where
  | synErr (msg : String)
  | refErr (msg : String)
  | typeErr (msg : String)
  | genErr (msg : String)
  | outOfFuel
deriving DecidableEq, Repr

/-- `createError`: append the diagnostic include-stack trace to a message,
exactly as the source formats it. -/
def mkGlslError (msg : String) (stack : List String) : String :=
  msg ++ "\n\tat (glsl) " ++ String.intercalate "\n\tat (glsl) " stack

/-- A pending call of the mutual recursion. -/
inductive EngineCall where
  | compile (lib : ShaderLib) (nameArg sourceArg : Option String)
  | get (lib : ShaderLib) (path : String)
  | process (lib : ShaderLib) (name source : String)
  | visit (lib : ShaderLib) (toks : List GlslToken) (root : String)
      (incStack : List String) (acc : List GlslToken)

/-- A call's result: `compile`/`get`/`process` produce text (or `null`) and
the updated library; `visit` produces the accumulated token stack and the
updated library. -/
inductive EngineRes where
  | textR (out : Option String) (lib : ShaderLib)
  | toksR (acc : List GlslToken) (lib : ShaderLib)

/-- The fuelled interpreter of the four mutually recursive operations,
translated line by line from `shader.js`. -/
def engine : Nat → EngineCall → Except JsErr EngineRes
  | 0, _ => .error .outOfFuel
  | fuel + 1, .compile lib nameArg sourceArg =>
    -- if (!source && name) { source = name; name = null }
    let swapped := !strTruthy sourceArg && strTruthy nameArg
    let sourceArg := if swapped then nameArg else sourceArg
    let nameArg : Option String := if swapped then none else nameArg
    -- if (!name) { name = kAnonymousShaderName }
    let name := if strTruthy nameArg then nameArg.getD "" else kAnonymousShaderName
    -- if (!source) { return null }
    if !strTruthy sourceArg then .ok (.textR none lib)
    else
      let source := sourceArg.getD ""
      let h := jsHash source
      -- if (this.cache[hash]) { return this.cache[hash] }
      if strTruthy (lib.cache.lookup h) then .ok (.textR (lib.cache.lookup h) lib)
      else
        let source := injectShaderNameDefine name source
        match engine fuel (.process lib name source) with
        | .error e => .error e
        | .ok (.toksR _ _) => .error .outOfFuel
        | .ok (.textR none _) => .error .outOfFuel
        | .ok (.textR (some s2) lib') =>
          let s3 := injectShaderPrecision lib'.precision s2
          let s4 := compileLineFilter s3
          -- this.cache.set(hash, source); return `${source}\n`
          .ok (.textR (some (s4 ++ "\n")) { lib' with cache := lib'.cache.set h s4 })
  | fuel + 1, .get lib path =>
    match lib.store.lookup path with
    | some src => engine fuel (.compile lib (some path) (some src))
    | none => .ok (.textR none lib)
  | fuel + 1, .process lib name source =>
    -- source = injectDefines(source, {...defines, ...opts.defines}); opts is {} at every call site in the repository
    let src := injectDefinesModel source lib.preprocDefines
    let root := if name ≠ kAnonymousShaderName then jsDirname name else "/"
    let toks := glslTokenize ("\n" ++ src ++ "\n")
    match engine fuel (.visit lib toks root [] []) with
    | .error e => .error e
    | .ok (.textR _ _) => .error .outOfFuel
    | .ok (.toksR acc lib') =>
      let out := glslTokensToString acc
      let out := lib'.middleware.foldl
        (fun s w => match w s with | some r => r | none => s) out
      .ok (.textR (some (jsReplaceFirst out "#define GLSLIFY 1\n" "")) lib')
  | _ + 1, .visit lib [] _ _ acc => .ok (.toksR acc lib)
  | fuel + 1, .visit lib (tok :: rest) root incStack acc =>
    match tok.kind with
    | .lineComment => engine fuel (.visit lib rest root incStack acc)
    | .blockComment => engine fuel (.visit lib rest root incStack acc)
    | .other => engine fuel (.visit lib rest root incStack (acc ++ [tok]))
    | .preproc =>
      match findDirective tok.data with
      | none => .error (.typeErr "Cannot read properties of null (reading 0)")
      | some directive =>
        if directive = "#define" then
          let tok' := match defineRemainder tok.data with
            | some rem =>
              if rem.data.any jsWs then tok else { tok with data := tok.data ++ " 1" }
            | none => tok
          engine fuel (.visit lib rest root incStack (acc ++ [tok']))
        else if directive = "#include" then
          match includeArg tok.data with
          | none => .error (.typeErr "Cannot read properties of undefined (reading replace)")
          | some arg =>
            let path := jsTrim (stripIncludeDelims arg)
            match arg.data with
            | [] => .error (.typeErr "Cannot read properties of undefined (reading trim)")
            | a0 :: _ =>
              let left : String := jsTrim ⟨[a0]⟩
              let argT := jsTrim arg
              match arg.data.get? (argT.data.length - 1) with
              | none => .error (.typeErr "Cannot read properties of undefined (reading trim)")
              | some rc =>
                let right : String := jsTrim ⟨[rc]⟩
                if left ≠ "<" ∧ left ≠ "\"" then
                  .error (.synErr (mkGlslError
                    ("Unexpected token '" ++ left ++ "'. Expecting '<' or '\"'.") incStack))
                else if right ≠ ">" ∧ right ≠ "\"" then
                  .error (.synErr (mkGlslError
                    ("Unexpected token '" ++ right ++ "'. Expecting " ++
                      (if left = "<" then "'>'" else "'\"'") ++ ".") incStack))
                else if left = "<" ∧ right ≠ ">" then
                  .error (.synErr (mkGlslError
                    ("Unexpected token '" ++ right ++ "'. Expecting '>'.") incStack))
                else if left = "\"" ∧ right ≠ "\"" then
                  .error (.synErr (mkGlslError
                    ("Unexpected token '" ++ right ++ "'. Expecting '\"'.") incStack))
                else
                  let nextRoot := if left = "<" ∧ right = ">" then "/" else root
                  let pfx := if path.data.head? ≠ some '.' then "./" else ""
                  let resolvedPath := shaderLibResolve (pfx ++ path) nextRoot
                  match engine fuel (.get lib resolvedPath) with
                  | .error e => .error e
                  | .ok (.toksR _ _) => .error .outOfFuel
                  | .ok (.textR shaderOut lib') =>
                    if strTruthy shaderOut then
                      let stack' := incStack ++ [path ++ ":" ++ toString tok.line]
                      match engine fuel
                          (.visit lib' (glslTokenize (shaderOut.getD "" ++ "\n"))
                            nextRoot stack' acc) with
                      | .error e => .error e
                      | .ok (.textR _ _) => .error .outOfFuel
                      | .ok (.toksR acc' lib'') =>
                        engine fuel (.visit lib'' rest root incStack acc')
                    else
                      .error (.refErr (mkGlslError
                        ("glsl lib " ++ arg ++ " not found.") incStack))
        else
          engine fuel (.visit lib rest root incStack (acc ++ [tok]))

/-- `ShaderLib.compile(name, source)` as a function of the library state:
the compiled text (`none` for the `null` returns) and the updated library. -/
def ShaderLib.compile (fuel : Nat) (lib : ShaderLib) (nameArg sourceArg : Option String) :
    Except JsErr (Option String × ShaderLib) :=
  match engine fuel (.compile lib nameArg sourceArg) with
  | .ok (.textR o l) => .ok (o, l)
  | .ok (.toksR _ _) => .error .outOfFuel
  | .error e => .error e

/-- `ShaderLib.get(path)`. -/
def ShaderLib.get (fuel : Nat) (lib : ShaderLib) (path : String) :
    Except JsErr (Option String × ShaderLib) :=
  match engine fuel (.get lib path) with
  | .ok (.textR o l) => .ok (o, l)
  | .ok (.toksR _ _) => .error .outOfFuel
  | .error e => .error e

/-- `ShaderLibPreprocessor.process(name, source)` (with the default empty
`opts`). -/
def preprocessorProcess (fuel : Nat) (lib : ShaderLib) (name source : String) :
    Except JsErr (String × ShaderLib) :=
  match engine fuel (.process lib name source) with
  | .ok (.textR (some o) l) => .ok (o, l)
  | .ok _ => .error .outOfFuel
  | .error e => .error e

/-! ## The `Shader` instance controller

The constructor closure of `class Shader` owns: the merged `defines` object,
the `ShaderLib`, the `injectContext` regl command (modelled by whether one
has been assigned), the compiled and uncompiled vertex/fragment sources, the
per-instance `shaderCache` content memo and the `contextCache` of registered
(vertex, fragment) hash pairs.  `injectParentContext = ctx.regl(parentOpts)`
only reconfigures the upstream context's `defines`, which this model treats
as an explicit input of every frame tick; exceptions thrown inside
`ShaderLib.compile` abort a tick with the library-cache mutations made up to
that point unobserved by any claim and not modelled. -/

/-- A vertex or fragment source slot of the frame state: a literal string or
a generator function.  The generator receives `(reglContext, state)` in the
source and may throw; no claim depends on its argument, which is therefore
modelled as `Unit`. -/
inductive ShaderSource where
  | lit (s : String)
  | gen (f : Unit → Except JsErr String)

/-- An association list of JavaScript define values. -/
abbrev Vmap := List (String × JsVal)

/-- Assoc-list read. -/
def Vmap.lookup : Vmap → String → Option JsVal
  | [], _ => none
  | (k, v) :: rest, key => if k = key then some v else Vmap.lookup rest key

/-- Assoc-list write, JavaScript property-order semantics. -/
def Vmap.set : Vmap → String → JsVal → Vmap
  | [], key, val => [(key, val)]
  | (k, v) :: rest, key, val =>
    if k = key then (k, val) :: rest else (k, v) :: Vmap.set rest key val

/-- `Object.assign(target, src)` / spread: copy every entry of `src` into
`target` in order. -/
def jsAssignVals (target src : Vmap) : Vmap :=
  src.foldl (fun t kv => t.set kv.1 kv.2) target

/-- `{...a, ...b}`: a fresh object holding `a` then `b`, `b` winning. -/
def jsSpreadMerge (a b : Vmap) : Vmap := jsAssignVals (jsAssignVals [] a) b

/-- The per-instance content memo `shaderCache`; its values are the compiled
strings (or `null` in a corner the claims never reach). -/
abbrev ShaderCache := List (String × Option String)

/-- Assoc-list read for the content memo. -/
def ShaderCache.lookup : ShaderCache → String → Option (Option String)
  | [], _ => none
  | (k, v) :: rest, key => if k = key then some v else ShaderCache.lookup rest key

/-- Assoc-list write for the content memo. -/
def ShaderCache.set : ShaderCache → String → Option String → ShaderCache
  | [], key, val => [(key, val)]
  | (k, v) :: rest, key, val =>
    if k = key then (k, val) :: rest else (k, v) :: ShaderCache.set rest key val

/-- The mutable closure state of one `Shader` instance. -/
structure ShaderState where
  defines : Vmap
  lib : ShaderLib
  injectContextSet : Bool
  vertexShader : Option String
  fragmentShader : Option String
  vertexShaderUncompiled : Option String
  fragmentShaderUncompiled : Option String
  shaderCache : ShaderCache
  contextCache : List String
  shaderName : String

/-- The per-frame input `state` of the update function. -/
structure FrameState where
  forceCompile : Bool
  defines : Vmap
  vertexShader : Option ShaderSource
  fragmentShader : Option ShaderSource

/-- The state a `Shader` instance is constructed with (`initialState` merged
over `Shader.defaults()`; the `ShaderLib` is created with the same defines,
which its constructor feeds through `preprocessor.define`). -/
def Shader.initState (shaderName : String) (defines : Vmap) : ShaderState :=
  { defines := defines
    lib := { ShaderLib.empty with
              preprocDefines := (preprocessorDefineMap [] defines).1 }
    injectContextSet := false
    vertexShader := none, fragmentShader := none
    vertexShaderUncompiled := none, fragmentShaderUncompiled := none
    shaderCache := [], contextCache := []
    shaderName := shaderName }

/-- `getViableShader(reglContext, currentState, shader)`: a literal string
is returned as-is, a generator function is invoked (and may throw), anything
else yields `undefined`. -/
def getViableShader : Option ShaderSource → Except JsErr (Option String)
  | some (.lit s) => .ok (some s)
  | some (.gen f) => (f ()).map some
  | none => .ok none

/-- `isViableShader(shader)`. -/
def isViableShader (s : Option ShaderSource) : Bool := s.isSome

/-- `checkShader(current, next)` inside `shouldCompile`: resolve the next
source (possibly invoking a generator), short-circuit to "no change" when
the per-instance content memo already holds the hash of the resolved text,
and otherwise compare against the currently recorded uncompiled source. -/
def checkShader (current : Option String) (next : Option ShaderSource)
    (memo : ShaderCache) : Except JsErr Bool :=
  match getViableShader next with
  | .error e => .error e
  | .ok nextS =>
    let hit := match nextS with
      | some s => match memo.lookup (jsHash s) with
        | some v => strTruthy v
        | none => false
      | none => false
    if hit then .ok false
    else if current.isNone ∧ strTruthy nextS then .ok true
    else if nextS.isSome ∧ current ≠ nextS then .ok true
    else .ok false

/-- `shouldCompile(reglContext, currentState)`: needs-compile when no regl
context has been assigned yet, or either shader slot's check trips. -/
def shouldCompile (st : ShaderState) (frame : FrameState) : Except JsErr Bool :=
  let n0 := !st.injectContextSet
  match checkShader st.vertexShaderUncompiled frame.vertexShader st.shaderCache with
  | .error e => .error e
  | .ok b1 =>
    match checkShader st.fragmentShaderUncompiled frame.fragmentShader st.shaderCache with
    | .error e => .error e
    | .ok b2 => .ok (n0 || b1 || b2)

/-- `compileShader(type, shader)` followed by the slot updates of
`compileVertexShader`/`compileFragmentShader`: resolve the source, run
`shaderLib.compile` then `shaderLib.preprocess`, store the compiled text,
the uncompiled text and the content-memo entry for the chosen slot.  On an
exception the state mutated so far is returned together with the error. -/
def compileShaderRun (fuel : Nat) (st : ShaderState) (typ : String)
    (src : Option ShaderSource) (isVertex : Bool) : ShaderState × Option JsErr :=
  if isViableShader src then
    match getViableShader src with
    | .error e => (st, some e)
    | .ok none => (st, some (.typeErr "unreachable: viable shader resolved to undefined"))
    | .ok (some uncompiled) =>
      match ShaderLib.compile fuel st.lib
          (some (st.shaderName ++ " (" ++ typ ++ ")")) (some uncompiled) with
      | .error e => (st, some e)
      | .ok (compiledOut, lib') =>
        match compiledOut with
        | none =>
          -- shaderLib.preprocess(null) crashes inside prepr; unreachable, as the name argument above is never empty
          ({ st with lib := lib' }, some (.typeErr "prepr: source is not a string"))
        | some c =>
          let c2 := lib'.preprocess c
          let st' := { st with lib := lib' }
          if isVertex then
            ({ st' with
                vertexShader := some c2
                vertexShaderUncompiled := some uncompiled
                shaderCache := st'.shaderCache.set (jsHash uncompiled) (some c2) }, none)
          else
            ({ st' with
                fragmentShader := some c2
                fragmentShaderUncompiled := some uncompiled
                shaderCache := st'.shaderCache.set (jsHash uncompiled) (some c2) }, none)
  else (st, none)

/-- The body of `compile(reglContext, currentState)`: compile the vertex
slot, then the fragment slot, then register the (vertex, fragment) pair
with the context cache, assigning `injectContext` only for an unseen pair. -/
def shaderCompileRun (fuel : Nat) (st : ShaderState) (frame : FrameState) :
    ShaderState × Option JsErr :=
  match compileShaderRun fuel st "vertex" frame.vertexShader true with
  | (st1, some e) => (st1, some e)
  | (st1, none) =>
    match compileShaderRun fuel st1 "fragment" frame.fragmentShader false with
    | (st2, some e) => (st2, some e)
    | (st2, none) =>
      let st3 :=
        if st2.vertexShader.isSome ∨ st2.fragmentShader.isSome then
          let h := String.join
            (([st2.vertexShader.map jsHash, st2.fragmentShader.map jsHash]).filterMap id)
          if st2.contextCache.contains h then st2
          else { st2 with injectContextSet := true, contextCache := st2.contextCache ++ [h] }
        else st2
      (st3, none)

/-- One frame tick of the `Shader` update function: merge the upstream regl
defines and the frame's defines into the instance defines, feed them to the
preprocessor's define table (forcing a compile when any value changed), then
compile if forced or `shouldCompile` says so.  Returns the closure state
after the tick, the exception that escaped (if any), and whether the tick
entered the compile path (the Compiling transition). -/
def Shader.update (fuel : Nat) (st0 : ShaderState) (reglDefines : Vmap)
    (frame : FrameState) : ShaderState × Option JsErr × Bool :=
  let merged := jsAssignVals st0.defines (jsSpreadMerge reglDefines frame.defines)
  let st := { st0 with defines := merged }
  let stForce :=
    if merged.isEmpty then (st, frame.forceCompile)
    else
      let r := preprocessorDefineMap st.lib.preprocDefines merged
      ({ st with lib := { st.lib with preprocDefines := r.1 } },
        frame.forceCompile || r.2)
  if stForce.2 then
    let r := shaderCompileRun fuel stForce.1 frame
    (r.1, r.2, true)
  else
    match shouldCompile stForce.1 frame with
    | .error e => (stForce.1, some e, false)
    | .ok true =>
      let r := shaderCompileRun fuel stForce.1 frame
      (r.1, r.2, true)
    | .ok false => (stForce.1, none, false)

/-! ## Observation helpers for stating claims -/

/-- The compiled text of a `compile`/`get` result (`none` for the `null`
return or an exception). -/
def compiledTextOf (r : Except JsErr (Option String × ShaderLib)) : Option String :=
  match r with
  | .ok (o, _) => o
  | .error _ => none

/-- The Compiled-Text Cache after a `compile`/`get` call, when it returned. -/
def compiledCacheOf (r : Except JsErr (Option String × ShaderLib)) : Option Smap :=
  match r with
  | .ok (_, l) => some l.cache
  | .error _ => none

/-- The exception raised by a `process` call, if any. -/
def processErrOf (r : Except JsErr (String × ShaderLib)) : Option JsErr :=
  match r with
  | .error e => some e
  | .ok _ => none

/-- The suffix of `l` after the first occurrence of `pat`, if it occurs. -/
def afterFirst : List Char → List Char → Option (List Char)
  | [], pat => if pat.isEmpty then some [] else none
  | c :: rest, pat =>
    if charsHasPrefix (c :: rest) pat then some ((c :: rest).drop pat.length)
    else afterFirst rest pat

/-- Whether the given patterns occur in the text in the given relative
order (later searches resume after the previous match). -/
def charsInOrder : List Char → List (List Char) → Bool
  | _, [] => true
  | l, p :: ps =>
    match afterFirst l p with
    | some r => charsInOrder r ps
    | none => false

/-- In-order containment on strings. -/
def strInOrder (s : String) (pats : List String) : Bool :=
  charsInOrder s.data (pats.map String.data)

/-- The number of lines of `s` that are precision declarations. -/
def precisionLineCount (s : String) : Nat :=
  ((splitChar '\n' s.data).filter (fun l => charsHasPrefix l "precision".data)).length

/-- A text has no blank lines when no two newlines are adjacent and it does
not start with a newline (a final trailing newline is not a blank line). -/
def noBlankLines (s : String) : Bool :=
  !charsContains s.data ['\n', '\n'] && s.data.head? ≠ some '\n'

/-! ## Concrete scenarios used by the claims -/

/-- C1/C2 first compilation: an empty library compiled once. -/
def c1FirstCall : Except JsErr (Option String × ShaderLib) :=
  ShaderLib.compile 9 ShaderLib.empty (some "n") (some "body")

/-- The library state after the C1 first compilation. -/
def c1Lib1 : ShaderLib :=
  match c1FirstCall with
  | .ok (_, l) => l
  | .error _ => ShaderLib.empty

/-- C2 first compilation under the name `n1`. -/
def c2FirstCall : Except JsErr (Option String × ShaderLib) :=
  ShaderLib.compile 9 ShaderLib.empty (some "n1") (some "body")

/-- The library state after the C2 first compilation. -/
def c2Lib1 : ShaderLib :=
  match c2FirstCall with
  | .ok (_, l) => l
  | .error _ => ShaderLib.empty

/-- C3: a freshly constructed shader instance. -/
def c3State0 : ShaderState := Shader.initState kAnonymousShaderName []

/-- C3: a frame with literal vertex/fragment sources and no defines. -/
def c3Frame1 : FrameState :=
  { forceCompile := false, defines := []
    vertexShader := some (.lit "vsrc"), fragmentShader := some (.lit "fsrc") }

/-- C3: the Compiled state after the first frame tick. -/
def c3StateC : ShaderState := (Shader.update 99 c3State0 [] c3Frame1).1

/-- C3: the same frame with the define X=1 added. -/
def c3Frame2 : FrameState :=
  { forceCompile := false, defines := [("X", .str "1")]
    vertexShader := some (.lit "vsrc"), fragmentShader := some (.lit "fsrc") }

/-- C3: the state after the define-changing tick. -/
def c3StateC2 : ShaderState := (Shader.update 99 c3StateC [] c3Frame2).1

/-- C5: a Store exercising both include forms with decoy fragments at the
paths a wrong resolution would hit. -/
def c5Lib : ShaderLib :=
  ((((((ShaderLib.empty.add
    "mat/flat" "#include \"./foo\"\n#include <light/ambient>\n#include \"bare\"").add
    "mat/foo" "FOO_BODY").add
    "foo" "ROOT_FOO_DECOY").add
    "light/ambient" "AMB_BODY").add
    "mat/light/ambient" "REL_AMB_DECOY").add
    "mat/bare" "BARE_BODY").add
    "bare" "ROOT_BARE_DECOY"

/-- C5: a Store whose angle-included fragment itself holds a quoted
include, with a decoy at the Store root. -/
def c5NestLib : ShaderLib :=
  ((ShaderLib.empty.add
    "light/ambient" "#include \"./common\"").add
    "light/common" "C_LIGHT").add
    "common" "C_ROOT_DECOY"

/-- C6: the Store of the end-to-end scenario. -/
def c6Lib : ShaderLib :=
  (ShaderLib.empty.add "a" "#define FOO\nbody_a").add "b" "#include <a>\nbody_b"

/-- C9: a freshly constructed shader instance. -/
def c9State0 : ShaderState := Shader.initState kAnonymousShaderName []

/-- C9: the first frame, compiling two literals. -/
def c9Frame1 : FrameState :=
  { forceCompile := false, defines := []
    vertexShader := some (.lit "v1"), fragmentShader := some (.lit "f1") }

/-- C9: the Compiled state after the first tick. -/
def c9StateC : ShaderState := (Shader.update 99 c9State0 [] c9Frame1).1

/-- C9: a forced frame whose vertex source changed and whose fragment
generator throws. -/
def c9FrameBoom : FrameState :=
  { forceCompile := true, defines := []
    vertexShader := some (.lit "v2")
    fragmentShader := some (.gen fun _ => .error (.genErr "boom")) }

/-- C9: an unforced frame whose fragment generator throws (the throw then
happens inside the `shouldCompile` dirty check). -/
def c9FrameCheck : FrameState :=
  { forceCompile := false, defines := []
    vertexShader := some (.lit "v1")
    fragmentShader := some (.gen fun _ => .error (.genErr "boom")) }

/-- C10: a Store holding a fragment registered with empty source text. -/
def c10Lib : ShaderLib := ShaderLib.empty.add "p" ""

/-- The string coercion the Define Table contract describes: booleans to
"1"/"0", numbers to their decimal rendering, strings unchanged, nothing for
`null`/`undefined`. -/
def coercedDefineValue : JsVal → Option String
  | .bool true => some "1"
  | .bool false => some "0"
  | .num n => some (toString n)
  | .str s => some s
  | .null => none

/-- Segment strings usable in the general include-resolution statement:
non-empty, slash-free and dot-free. -/
def segOk (s : String) : Bool :=
  !s.isEmpty && s.data.all (fun c => c ≠ '/' && c ≠ '.')

/-- Join path segments with slashes. -/
def joinPath (l : List String) : String := ⟨joinChar '/' (l.map String.data)⟩

/-! ## Structural lemmas -/

/-- Setting a key makes it readable. -/
theorem Smap.lookup_set_self (m : Smap) (k v : String) : (m.set k v).lookup k = some v := by
  induction m with
  | nil => simp [Smap.set, Smap.lookup]
  | cons hd tl ih =>
    obtain ⟨k', v'⟩ := hd
    by_cases h : k' = k <;> simp [Smap.set, Smap.lookup, h, ih]

/-- Setting the same key/value twice equals setting it once. -/
theorem Smap.set_set_self (m : Smap) (k v : String) : (m.set k v).set k v = m.set k v := by
  induction m with
  | nil => simp [Smap.set]
  | cons hd tl ih =>
    obtain ⟨k', v'⟩ := hd
    by_cases h : k' = k <;> simp [Smap.set, h, ih]

/-- Setting one key leaves other keys unchanged. -/
theorem Smap.lookup_set_ne (m : Smap) (k k' v : String) (h : k' ≠ k) :
    (m.set k v).lookup k' = m.lookup k' := by
  induction m with
  | nil => simp [Smap.set, Smap.lookup, h, Ne.symm h]
  | cons hd tl ih =>
    obtain ⟨k0, v0⟩ := hd
    by_cases h0 : k0 = k
    · subst h0
      simp [Smap.set, Smap.lookup, Ne.symm h]
    · by_cases h1 : k0 = k' <;> simp [Smap.set, Smap.lookup, h0, h1, h, ih]

/-- `splitChar` never returns the empty list. -/
theorem splitChar_ne_nil (sep : Char) (l : List Char) : splitChar sep l ≠ [] := by
  induction l with
  | nil => simp [splitChar]
  | cons c rest ih =>
    simp only [splitChar]
    split
    · simp
    · cases h : splitChar sep rest with
      | nil => exact absurd h ih
      | cons s ss => simp

/-- A join headed by a non-empty part is non-empty. -/
theorem joinChar_cons_ne_nil (sep : Char) (x : List Char) (xs : List (List Char))
    (hx : x ≠ []) : joinChar sep (x :: xs) ≠ [] := by
  cases xs with
  | nil => simpa [joinChar]
  | cons y ys => simp [joinChar, hx]

/-- A split headed by a non-separator character starts with a part headed by
that character. -/
theorem splitChar_cons_head (sep c : Char) (l : List Char) (h : ¬(c = sep)) :
    ∃ s0 ss, splitChar sep (c :: l) = (c :: s0) :: ss := by
  simp only [splitChar, if_neg h]
  cases hs : splitChar sep l with
  | nil => exact absurd hs (splitChar_ne_nil _ _)
  | cons s ss => exact ⟨s, ss, rfl⟩

/-- The precision pass always leaves a text starting with `p` (the injected
header). -/
theorem injectShaderPrecision_head (p x : String) :
    (injectShaderPrecision p x).data.head? = some 'p' := by
  have h0 : ("precision " : String).data = 'p' :: ("recision " : String).data := rfl
  simp only [injectShaderPrecision, String.data_append, h0, List.cons_append,
    List.head?_cons]

/-- The final line filter of `compile` never empties a text that starts
with `p` — in particular the body stored in the Compiled-Text Cache is
always truthy. -/
theorem compileLineFilter_head_p (s : String) (h : s.data.head? = some 'p') :
    compileLineFilter s ≠ "" := by
  cases hd : s.data with
  | nil => rw [hd] at h; exact Option.noConfusion h
  | cons c t =>
    rw [hd] at h
    have hc : c = 'p' := by simpa using h
    subst hc
    obtain ⟨s0, ss, hsplit⟩ := splitChar_cons_head '\n' 'p' t (by decide)
    unfold compileLineFilter
    rw [hd, hsplit, List.filter_cons_of_pos (by simp)]
    simp only [List.map_cons]
    intro hcontra
    have hdata : joinChar '\n'
        ((if ('p' :: s0).length = 1 then ('p' :: s0) ++ ['\n'] else 'p' :: s0) ::
          List.map (fun l => if l.length = 1 then l ++ ['\n'] else l)
            (List.filter (fun l => decide (l.length ≠ 0)) ss)) = [] := by
      have := congrArg String.data hcontra
      simpa using this
    refine joinChar_cons_ne_nil _ _ _ ?_ hdata
    split <;> simp

/-- A non-empty string is truthy. -/
theorem strTruthy_some_ne (s : String) (hs : s ≠ "") : strTruthy (some s) = true := by
  simp only [strTruthy, Bool.not_eq_true']
  rw [Bool.eq_false_iff]
  intro h
  exact hs ((String.isEmpty_iff s).mp h)

/-- `undefined` is falsy. -/
theorem strTruthy_none : strTruthy none = false := rfl

/-- The shape of a cache-missing `compile` call that returned text: the
returned text is the stored cache body plus a trailing newline, the body is
truthy, and every repeat call on the resulting library — under any name —
is served from the cache, returning the body without the newline and
leaving the library untouched. -/
theorem compileMissShape (fuel : Nat) (lib lib1 : ShaderLib) (n s t : String)
    (hs : s ≠ "") (hmiss : lib.cache.lookup (jsHash s) = none)
    (h1 : ShaderLib.compile (fuel + 1) lib (some n) (some s) = .ok (some t, lib1)) :
    ∃ c, c ≠ "" ∧ t = c ++ "\n" ∧ lib1.cache.lookup (jsHash s) = some c ∧
      ∀ nameArg, ShaderLib.compile (fuel + 1) lib1 nameArg (some s) = .ok (some c, lib1) := by
  have hsm : strTruthy (some s) = true := strTruthy_some_ne s hs
  unfold ShaderLib.compile at h1
  simp only [engine, hsm, Bool.not_true, Bool.false_and, Bool.false_eq_true, if_false,
    Option.getD_some, hmiss, strTruthy_none] at h1
  split at h1
  case _ o l heq =>
    rw [Except.ok.injEq, Prod.mk.injEq] at h1
    obtain ⟨ho, hl⟩ := h1
    split at heq
    · exact absurd heq (by simp)
    · exact absurd heq (by simp)
    · exact absurd heq (by simp)
    case _ s2 lib' hinner =>
      rw [Except.ok.injEq, EngineRes.textR.injEq] at heq
      obtain ⟨hco, hcl⟩ := heq
      subst ho
      rw [Option.some.injEq] at hco
      subst hl
      subst hcl
      subst hco
      refine ⟨compileLineFilter (injectShaderPrecision lib'.precision s2), ?_, rfl, ?_, ?_⟩
      · exact compileLineFilter_head_p _ (injectShaderPrecision_head _ _)
      · exact Smap.lookup_set_self _ _ _
      · intro nameArg
        have hc : compileLineFilter (injectShaderPrecision lib'.precision s2) ≠ "" :=
          compileLineFilter_head_p _ (injectShaderPrecision_head _ _)
        unfold ShaderLib.compile
        simp only [engine, hsm, Bool.not_true, Bool.false_and, Bool.false_eq_true, if_false,
          Option.getD_some, Smap.lookup_set_self, strTruthy_some_ne _ hc, if_true]
  · exact absurd h1 (by simp)
  · exact absurd h1 (by simp)

/-- C1, counterexample: for a fixed Store and Define Table, two calls of
`compile` with identical name and source do NOT always yield byte-identical
output: the first (cache-missing) call returns the text with the guaranteed
trailing newline, while the second call — served from the Compiled-Text
Cache, which stores the text before the newline is appended — returns the
same text without it. -/
theorem c1_counterexample :
    compiledTextOf c1FirstCall = some "precision mediump float;\nbody\n" ∧
    compiledTextOf (ShaderLib.compile 9 c1Lib1 (some "n") (some "body")) =
      some "precision mediump float;\nbody" ∧
    compiledTextOf (ShaderLib.compile 9 c1Lib1 (some "n") (some "body")) ≠
      compiledTextOf c1FirstCall := by
  refine ⟨by decide, by decide, by decide⟩

/-- C1, amended: a cache-missing `compile(name, source)` call returns the
cached body plus a trailing newline; every repeat call with the same
arguments is served from the Compiled-Text Cache and returns exactly the
cached body, i.e. the first call's bytes WITHOUT the trailing newline (so
hit and miss outputs differ by exactly that newline); and adding the same
`(path, source)` twice is idempotent, leaving every `get` output
unchanged. -/
theorem c1_amended (fuel : Nat) (lib lib1 : ShaderLib) (n s t p src : String)
    (hs : s ≠ "") (hmiss : lib.cache.lookup (jsHash s) = none)
    (h1 : ShaderLib.compile (fuel + 1) lib (some n) (some s) = .ok (some t, lib1)) :
    (∃ c, c ≠ "" ∧ t = c ++ "\n" ∧
      ShaderLib.compile (fuel + 1) lib1 (some n) (some s) = .ok (some c, lib1) ∧
      some c ≠ some t) ∧
    (lib.add p src).add p src = lib.add p src ∧
    (∀ f q, ShaderLib.get f ((lib.add p src).add p src) q =
      ShaderLib.get f (lib.add p src) q) := by
  obtain ⟨c, hc, ht, hlook, hall⟩ := compileMissShape fuel lib lib1 n s t hs hmiss h1
  have haddIdem : (lib.add p src).add p src = lib.add p src := by
    simp [ShaderLib.add, Smap.set_set_self]
  refine ⟨⟨c, hc, ht, hall (some n), ?_⟩, haddIdem, ?_⟩
  · intro heq
    rw [Option.some.injEq] at heq
    have hlen := congrArg String.length heq
    rw [ht, String.length_append] at hlen
    simp at hlen
    exact absurd hlen (by decide)
  · intro f q
    rw [haddIdem]

/-- C1, witness: the amended claim applied to the concrete first
compilation of "body" in an empty library. -/
theorem c1_witness :
    (("body" : String) ≠ "" ∧
      ShaderLib.empty.cache.lookup (jsHash "body") = none ∧
      ShaderLib.compile 9 ShaderLib.empty (some "n") (some "body") =
        .ok (some "precision mediump float;\nbody\n", c1Lib1)) ∧
    ((∃ c, c ≠ "" ∧ "precision mediump float;\nbody\n" = c ++ "\n" ∧
        ShaderLib.compile 9 c1Lib1 (some "n") (some "body") = .ok (some c, c1Lib1) ∧
        some c ≠ some "precision mediump float;\nbody\n") ∧
      (ShaderLib.empty.add "q" "srctext").add "q" "srctext" =
        ShaderLib.empty.add "q" "srctext" ∧
      (∀ f q2, ShaderLib.get f ((ShaderLib.empty.add "q" "srctext").add "q" "srctext") q2 =
        ShaderLib.get f (ShaderLib.empty.add "q" "srctext") q2)) :=
  ⟨⟨by decide, by decide, rfl⟩,
    c1_amended 8 ShaderLib.empty c1Lib1 "n" "body" "precision mediump float;\nbody\n"
      "q" "srctext" (by decide) (by decide) rfl⟩

/-- C2, counterexample: `compile` embeds no name marker and hashes the raw
source only — after compiling the same source under the distinct names
"n1" and "nTWO", the cache holds a single entry keyed by the hash of the
raw source; the second name's call is served from the first name's entry,
refuting both the distinct-entries and name-in-hashed-text parts of the
claim. -/
theorem c2_counterexample :
    compiledTextOf c2FirstCall = some "precision mediump float;\nbody\n" ∧
    compiledTextOf (ShaderLib.compile 9 c2Lib1 (some "nTWO") (some "body")) =
      some "precision mediump float;\nbody" ∧
    compiledCacheOf (ShaderLib.compile 9 c2Lib1 (some "nTWO") (some "body")) =
      some [(jsHash "body", "precision mediump float;\nbody")] ∧
    strContains "body" "n1" = false ∧ strContains "body" "nTWO" = false := by
  refine ⟨by decide, by decide, by decide, by decide, by decide⟩

/-- C2, amended: the cache key of `compile(name, source)` is the hash of
the raw source alone, computed before `injectShaderNameDefine` (which only
strips an existing SHADER_NAME block and injects nothing): after compiling
a source under one name, compiling the same source under ANY other name is
served from the same single cache entry and leaves the cache unchanged. -/
theorem c2_amended (fuel : Nat) (lib lib1 : ShaderLib) (n1 n2 s t : String)
    (hs : s ≠ "") (hmiss : lib.cache.lookup (jsHash s) = none)
    (h1 : ShaderLib.compile (fuel + 1) lib (some n1) (some s) = .ok (some t, lib1)) :
    ∃ c, lib1.cache.lookup (jsHash s) = some c ∧ t = c ++ "\n" ∧
      ShaderLib.compile (fuel + 1) lib1 (some n2) (some s) = .ok (some c, lib1) := by
  obtain ⟨c, _, ht, hlook, hall⟩ := compileMissShape fuel lib lib1 n1 s t hs hmiss h1
  exact ⟨c, hlook, ht, hall (some n2)⟩

/-- C2, witness: the amended claim applied to compiling "body" first under
"n1", then under "nTWO". -/
theorem c2_witness :
    (("body" : String) ≠ "" ∧
      ShaderLib.empty.cache.lookup (jsHash "body") = none ∧
      ShaderLib.compile 9 ShaderLib.empty (some "n1") (some "body") =
        .ok (some "precision mediump float;\nbody\n", c2Lib1)) ∧
    (∃ c, c2Lib1.cache.lookup (jsHash "body") = some c ∧
      "precision mediump float;\nbody\n" = c ++ "\n" ∧
      ShaderLib.compile 9 c2Lib1 (some "nTWO") (some "body") = .ok (some c, c2Lib1)) :=
  ⟨⟨by decide, by decide, rfl⟩,
    c2_amended 8 ShaderLib.empty c2Lib1 "n1" "nTWO" "body"
      "precision mediump float;\nbody\n" (by decide) (by decide) rfl⟩

/-- C4: processing `#include <a/b"` — mismatched bracket/quote delimiters —
raises a SyntaxError (never a silent pass), whose message identifies the
token `"` as unexpected, states that `>` was expected, and carries the
diagnostic include-stack trace at the point of failure (empty at top
level, rendered by the same `join` the source uses). -/
theorem c4_delimiter_validation :
    processErrOf (preprocessorProcess 9 ShaderLib.empty "x" "#include <a/b\"") =
      some (.synErr ("Unexpected token '\"'. Expecting '>'." ++ "\n\tat (glsl) " ++
        String.intercalate "\n\tat (glsl) " [])) := by
  decide

/-- C6: with the Store holding a = "#define FOO\nbody_a" and
b = "#include <a>\nbody_b", `compile("root", "#include <b>")` returns text
containing `#define FOO 1`, `body_a` and `body_b` in that relative order,
with exactly one precision declaration line and no blank lines (the text is
computed exactly). -/
theorem c6_end_to_end :
    ∃ t, compiledTextOf (ShaderLib.compile 99 c6Lib (some "root") (some "#include <b>")) =
        some t ∧
      strInOrder t ["#define FOO 1", "body_a", "body_b"] = true ∧
      precisionLineCount t = 1 ∧
      noBlankLines t = true ∧
      t = "precision mediump float;\n#define FOO 1\nbody_a\nbody_b\n" :=
  ⟨"precision mediump float;\n#define FOO 1\nbody_a\nbody_b\n",
    by decide, by decide, by decide, by decide, rfl⟩

/-- C8: `ShaderLib.hash` is commutative over character order — any two
strings that are permutations of each other's characters hash identically;
in particular the distinct strings "ab" and "ba" collide. -/
theorem c8_hash_commutative :
    (∀ s t : String, s.data.Perm t.data → jsHash s = jsHash t) ∧
    (("ab" : String) ≠ "ba" ∧ jsHash "ab" = jsHash "ba") := by
  refine ⟨?_, by decide, by decide⟩
  intro s t hperm
  unfold jsHash jsHashNum
  rw [List.Perm.sum_eq (List.Perm.map jsCharUnitSum hperm)]

/-- C8, witness: the commutativity statement applied to the concrete
anagram pair "ab"/"ba". -/
theorem c8_witness :
    ("ab" : String).data.Perm ("ba" : String).data ∧ jsHash "ab" = jsHash "ba" :=
  ⟨by decide, c8_hash_commutative.1 "ab" "ba" (by decide)⟩

/-- The empty string is falsy. -/
theorem strTruthy_some_empty : strTruthy (some "") = false := by decide

/-- C10: `compile(name, "")` with a truthy name reinterprets the name as
the source text (and the shader becomes anonymous) — the call behaves
exactly as `compile(null, name)`; consequently `get(path)` on a fragment
registered with empty source returns the compilation of the path string
itself rather than a compiled empty fragment or the not-found `null` (as
the concrete Store with `p` registered empty shows). -/
theorem c10_empty_source_fallback :
    (∀ fuel (lib : ShaderLib) (n : String),
      ShaderLib.compile fuel lib (some n) (some "") =
        ShaderLib.compile fuel lib none (some n)) ∧
    (∀ fuel (lib : ShaderLib) (p : String), lib.store.lookup p = some "" →
      ShaderLib.get (fuel + 1) lib p = ShaderLib.compile fuel lib (some p) (some "")) ∧
    (compiledTextOf (ShaderLib.get 9 c10Lib "p") =
        some "precision mediump float;\np\n\n" ∧
      compiledTextOf (ShaderLib.get 9 c10Lib "p") ≠ none ∧
      compiledTextOf (ShaderLib.compile 9 ShaderLib.empty none (some "")) = none) := by
  refine ⟨?_, ?_, by decide, by decide, by decide⟩
  · intro fuel lib n
    cases fuel with
    | zero => rfl
    | succ f =>
      cases hn : strTruthy (some n) with
      | true =>
        simp only [ShaderLib.compile, engine, hn, strTruthy_some_empty, strTruthy_none,
          Bool.not_false, Bool.not_true, Bool.true_and, Bool.and_false, Bool.false_and,
          Bool.false_eq_true, ite_true, ite_false, Option.getD_some, Option.getD_none]
      | false =>
        simp only [ShaderLib.compile, engine, hn, strTruthy_some_empty, strTruthy_none,
          Bool.not_false, Bool.not_true, Bool.true_and, Bool.and_false, Bool.false_and,
          Bool.false_eq_true, ite_true, ite_false, Option.getD_some, Option.getD_none]
  · intro fuel lib p h
    simp only [ShaderLib.get, ShaderLib.compile, engine, h]

/-- C10, witness: the get-delegation clause applied to the concrete Store
with the fragment `p` registered at empty source. -/
theorem c10_witness :
    c10Lib.store.lookup "p" = some "" ∧
    ShaderLib.get 9 c10Lib "p" = ShaderLib.compile 8 c10Lib (some "p") (some "") :=
  ⟨by decide, c10_empty_source_fallback.2.1 8 c10Lib "p" (by decide)⟩

/-- `ShaderLibPreprocessor.define(key, value)` in terms of the claim-level
coercion: skipped for `null`/`undefined`, otherwise set-and-report-change
exactly when the coerced string differs from the stored one. -/
theorem kv_coerce (defs : Smap) (k : String) (v : JsVal) :
    preprocessorDefineKV defs k v =
      (match coercedDefineValue v with
        | none => (defs, false)
        | some c => if defs.lookup k ≠ some c then (defs.set k c, true) else (defs, false)) := by
  cases v with
  | str s => simp [preprocessorDefineKV, coercedDefineValue, jsValToString]
  | bool b => cases b <;> simp [preprocessorDefineKV, coercedDefineValue, jsValToString] <;> rfl
  | num n => simp [preprocessorDefineKV, coercedDefineValue, jsValToString]
  | null => simp [preprocessorDefineKV, coercedDefineValue, jsValToString]

/-- A single define leaves other keys unchanged. -/
theorem kv_lookup_ne (defs : Smap) (k k' : String) (v : JsVal) (h : k' ≠ k) :
    ((preprocessorDefineKV defs k v).1).lookup k' = defs.lookup k' := by
  rw [kv_coerce]
  cases coercedDefineValue v with
  | none => rfl
  | some c =>
    simp only []
    split
    · exact Smap.lookup_set_ne _ _ _ _ h
    · rfl

/-- The define-map fold with an arbitrary initial flag. -/
theorem dm_fold_acc (m : Vmap) (d : Smap) (b : Bool) :
    m.foldl
        (fun acc kv =>
          let r := preprocessorDefineKV acc.1 kv.1 kv.2
          (r.1, acc.2 || r.2))
        (d, b) =
      ((preprocessorDefineMap d m).1, b || (preprocessorDefineMap d m).2) := by
  induction m generalizing d b with
  | nil => simp [preprocessorDefineMap]
  | cons kv rest ih =>
    simp only [preprocessorDefineMap, List.foldl_cons]
    rw [ih, ih]
    simp [Bool.or_assoc]

/-- Unfolding one entry of `define(map)`. -/
theorem dm_cons (d : Smap) (kv : String × JsVal) (rest : Vmap) :
    preprocessorDefineMap d (kv :: rest) =
      ((preprocessorDefineMap (preprocessorDefineKV d kv.1 kv.2).1 rest).1,
        (preprocessorDefineKV d kv.1 kv.2).2 ||
          (preprocessorDefineMap (preprocessorDefineKV d kv.1 kv.2).1 rest).2) := by
  simp only [preprocessorDefineMap, List.foldl_cons]
  rw [dm_fold_acc]
  simp [preprocessorDefineMap]

/-- `define(map)` leaves keys not in the map unchanged. -/
theorem dm_lookup_notmem (d : Smap) (m : Vmap) (k : String)
    (h : k ∉ m.map Prod.fst) :
    ((preprocessorDefineMap d m).1).lookup k = d.lookup k := by
  induction m generalizing d with
  | nil => simp [preprocessorDefineMap]
  | cons kv rest ih =>
    rw [dm_cons]
    simp only [List.map_cons, List.mem_cons, not_or] at h
    rw [ih _ h.2, kv_lookup_ne _ _ _ _ h.1]

/-- With distinct keys, `define(map)` reports a change exactly when some
entry's coerced value differs from the value stored under its key. -/
theorem dm_changed_iff (d : Smap) (m : Vmap) (hnd : (m.map Prod.fst).Nodup) :
    (preprocessorDefineMap d m).2 = true ↔
      ∃ kv ∈ m, ∃ c, coercedDefineValue kv.2 = some c ∧ d.lookup kv.1 ≠ some c := by
  induction m generalizing d with
  | nil => simp [preprocessorDefineMap]
  | cons kv rest ih =>
    simp only [List.map_cons, List.nodup_cons] at hnd
    rw [dm_cons]
    simp only [Bool.or_eq_true, List.mem_cons]
    constructor
    · rintro (hkv | hrest)
      · rw [kv_coerce] at hkv
        cases hc : coercedDefineValue kv.2 with
        | none => rw [hc] at hkv; simp at hkv
        | some c =>
          rw [hc] at hkv
          simp only [] at hkv
          split at hkv
          · exact ⟨kv, Or.inl rfl, c, hc, by assumption⟩
          · simp at hkv
      · obtain ⟨kv', hmem, c, hc, hne⟩ := (ih _ hnd.2).mp hrest
        refine ⟨kv', Or.inr hmem, c, hc, ?_⟩
        have hkne : kv'.1 ≠ kv.1 := by
          intro he
          exact hnd.1 (he ▸ List.mem_map_of_mem Prod.fst hmem)
        rwa [kv_lookup_ne _ _ _ _ hkne] at hne
    · rintro ⟨kv', hmem, c, hc, hne⟩
      rcases hmem with heq | hmem
      · subst heq
        left
        rw [kv_coerce, hc]
        simp only []
        rw [if_pos hne]
      · right
        refine (ih _ hnd.2).mpr ⟨kv', hmem, c, hc, ?_⟩
        have hkne : kv'.1 ≠ kv.1 := by
          intro he
          exact hnd.1 (he ▸ List.mem_map_of_mem Prod.fst hmem)
        rwa [kv_lookup_ne _ _ _ _ hkne]

/-- With distinct keys, `define(map)` applies every non-null entry. -/
theorem dm_applies (d : Smap) (m : Vmap) (hnd : (m.map Prod.fst).Nodup) :
    ∀ kv ∈ m, ∀ c, coercedDefineValue kv.2 = some c →
      ((preprocessorDefineMap d m).1).lookup kv.1 = some c := by
  induction m generalizing d with
  | nil => simp
  | cons kv0 rest ih =>
    simp only [List.map_cons, List.nodup_cons] at hnd
    intro kv hmem c hc
    rcases List.mem_cons.mp hmem with heq | hmem2
    · subst heq
      rw [dm_cons]
      simp only []
      rw [dm_lookup_notmem _ _ _ hnd.1]
      rw [kv_coerce, hc]
      simp only []
      split
      · exact Smap.lookup_set_self _ _ _
      · simp only [ne_eq, not_not] at *
        assumption
    · rw [dm_cons]
      exact ih _ hnd.2 kv hmem2 c hc

/-- C7, counterexample: `define("K", null)` with "x" stored under K leaves
the table unchanged and returns `false`, although JavaScript's string
coercion of `null` ("null") differs from "x" — `null`/`undefined` values
are skipped entirely rather than coerced to strings, refuting the "all
other values" clause as stated. -/
theorem c7_counterexample :
    preprocessorDefineKV [("K", "x")] "K" .null = ([("K", "x")], false) ∧
    ("null" : String) ≠ "x" := by
  refine ⟨by decide, by decide⟩

/-- C7, amended: `define(name, value)` coerces booleans to "1"/"0" and
other non-null values to strings, updates the table and returns `true`
exactly when the coerced value differs from the stored one, and returns
`false` leaving the table unchanged otherwise; `null`/`undefined` values
are skipped (no-op returning `false`); `define(map)` with distinct keys
applies every non-null entry and returns `true` iff at least one entry
changed. -/
theorem c7_amended :
    (coercedDefineValue (.bool true) = some "1" ∧
      coercedDefineValue (.bool false) = some "0") ∧
    (∀ (defs : Smap) (k : String) (v : JsVal) (c : String),
      coercedDefineValue v = some c →
        (defs.lookup k ≠ some c → preprocessorDefineKV defs k v = (defs.set k c, true)) ∧
        (defs.lookup k = some c → preprocessorDefineKV defs k v = (defs, false))) ∧
    (∀ (defs : Smap) (k : String), preprocessorDefineKV defs k .null = (defs, false)) ∧
    (∀ (defs : Smap) (m : Vmap), (m.map Prod.fst).Nodup →
      ((preprocessorDefineMap defs m).2 = true ↔
        ∃ kv ∈ m, ∃ c, coercedDefineValue kv.2 = some c ∧ defs.lookup kv.1 ≠ some c)) ∧
    (∀ (defs : Smap) (m : Vmap), (m.map Prod.fst).Nodup →
      ∀ kv ∈ m, ∀ c, coercedDefineValue kv.2 = some c →
        ((preprocessorDefineMap defs m).1).lookup kv.1 = some c) := by
  refine ⟨⟨by decide, by decide⟩, ?_, ?_, dm_changed_iff, dm_applies⟩
  · intro defs k v c hc
    rw [kv_coerce, hc]
    constructor
    · intro h
      simp only []
      rw [if_pos h]
    · intro h
      simp only []
      rw [if_neg (by simp [h])]
  · intro defs k
    rfl

/-- C7, witness: the amended claim applied to setting X=true on an empty
table, re-setting the same value, and a one-entry map. -/
theorem c7_witness :
    (coercedDefineValue (.bool true) = some "1" ∧
      Smap.lookup [] "X" ≠ some "1" ∧
      Smap.lookup [("X", "1")] "X" = some "1" ∧
      ((List.map Prod.fst ([("Y", JsVal.bool true)] : Vmap)).Nodup) ∧
      ("Y", JsVal.bool true) ∈ ([("Y", JsVal.bool true)] : Vmap)) ∧
    preprocessorDefineKV [] "X" (.bool true) = (Smap.set [] "X" "1", true) ∧
    preprocessorDefineKV [("X", "1")] "X" (.bool true) = ([("X", "1")], false) ∧
    ((preprocessorDefineMap [] [("Y", JsVal.bool true)]).2 = true ↔
      ∃ kv ∈ ([("Y", JsVal.bool true)] : Vmap), ∃ c,
        coercedDefineValue kv.2 = some c ∧ Smap.lookup [] kv.1 ≠ some c) :=
  ⟨⟨by decide, by decide, by decide, by decide, by decide⟩,
    (c7_amended.2.1 [] "X" (.bool true) "1" (by decide)).1 (by decide),
    (c7_amended.2.1 [("X", "1")] "X" (.bool true) "1" (by decide)).2 (by decide),
    c7_amended.2.2.2.1 [] [("Y", JsVal.bool true)] (by decide)⟩

/-- C3: for a Shader Instance in the Compiled state (a regl context is
assigned and both literal sources are present in the per-instance content
memo, so the source text is unchanged), a frame tick whose define merge
actually changed the Define Table passes through the Compiling transition,
while a tick whose define merge changed nothing (in particular one that
sets the same values again) does not recompile. -/
theorem c3_define_recompile (fuel : Nat) (st : ShaderState) (regl frameDefs : Vmap)
    (v f : String)
    (hCtx : st.injectContextSet = true)
    (hv : ∃ cv, st.shaderCache.lookup (jsHash v) = some cv ∧ strTruthy cv = true)
    (hf : ∃ cf, st.shaderCache.lookup (jsHash f) = some cf ∧ strTruthy cf = true) :
    ((jsAssignVals st.defines (jsSpreadMerge regl frameDefs)).isEmpty = false →
      (preprocessorDefineMap st.lib.preprocDefines
          (jsAssignVals st.defines (jsSpreadMerge regl frameDefs))).2 = true →
      (Shader.update fuel st regl
          ⟨false, frameDefs, some (.lit v), some (.lit f)⟩).2.2 = true) ∧
    ((preprocessorDefineMap st.lib.preprocDefines
          (jsAssignVals st.defines (jsSpreadMerge regl frameDefs))).2 = false →
      (Shader.update fuel st regl
          ⟨false, frameDefs, some (.lit v), some (.lit f)⟩).2.2 = false) := by
  obtain ⟨cv, hcv, hcvt⟩ := hv
  obtain ⟨cf, hcf, hcft⟩ := hf
  constructor
  · intro hne hch
    simp only [Shader.update, hne, hch, Bool.false_eq_true, ite_false, Bool.false_or, ite_true]
  · intro hch
    cases hemp : (jsAssignVals st.defines (jsSpreadMerge regl frameDefs)).isEmpty with
    | true =>
      simp only [Shader.update, hemp, ite_true]
      simp only [shouldCompile, checkShader, getViableShader, hCtx, Bool.not_true, hcv, hcvt,
        strTruthy_some_ne, ite_true, ite_false, hcf, hcft, Bool.false_or, Bool.false_eq_true]
    | false =>
      simp only [Shader.update, hemp, hch, Bool.false_eq_true, ite_false, Bool.false_or]
      simp only [shouldCompile, checkShader, getViableShader, hCtx, Bool.not_true, hcv, hcvt,
        strTruthy_some_ne, ite_true, ite_false, hcf, hcft, Bool.false_or, Bool.false_eq_true]

/-- C3, witness: the recompile decision applied to a concretely built
Compiled instance — a tick adding the define X=1 compiles, the following
tick setting X=1 again does not. -/
theorem c3_witness :
    (c3StateC.injectContextSet = true ∧
      c3StateC.shaderCache.lookup (jsHash "vsrc") =
        some (some "precision mediump float;\nvsrc") ∧
      c3StateC.shaderCache.lookup (jsHash "fsrc") =
        some (some "precision mediump float;\nfsrc") ∧
      (jsAssignVals c3StateC.defines (jsSpreadMerge [] [("X", JsVal.str "1")])).isEmpty =
        false ∧
      (preprocessorDefineMap c3StateC.lib.preprocDefines
          (jsAssignVals c3StateC.defines (jsSpreadMerge [] [("X", JsVal.str "1")]))).2 =
        true ∧
      (preprocessorDefineMap c3StateC2.lib.preprocDefines
          (jsAssignVals c3StateC2.defines (jsSpreadMerge [] [("X", JsVal.str "1")]))).2 =
        false ∧
      c3StateC2.injectContextSet = true) ∧
    (Shader.update 99 c3StateC []
        ⟨false, [("X", JsVal.str "1")], some (.lit "vsrc"), some (.lit "fsrc")⟩).2.2 =
      true ∧
    (Shader.update 99 c3StateC2 []
        ⟨false, [("X", JsVal.str "1")], some (.lit "vsrc"), some (.lit "fsrc")⟩).2.2 =
      false :=
  ⟨⟨by decide, by decide, by decide, by decide, by decide, by decide, by decide⟩,
    (c3_define_recompile 99 c3StateC [] [("X", JsVal.str "1")] "vsrc" "fsrc" (by decide)
      ⟨some "precision mediump float;\nvsrc", by decide, by decide⟩
      ⟨some "precision mediump float;\nfsrc", by decide, by decide⟩).1 (by decide) (by decide),
    (c3_define_recompile 99 c3StateC2 [] [("X", JsVal.str "1")] "vsrc" "fsrc" (by decide)
      ⟨some "precision mediump float;\nvsrc", by decide, by decide⟩
      ⟨some "precision mediump float;\nfsrc", by decide, by decide⟩).2 (by decide)⟩

/-- C9, amended: when a frame tick raises before entering the compile path
(the `false` flag — in particular when a source generator throws during the
`shouldCompile` dirty check), the exception propagates uncaught and the
instance's compiled programs, recorded uncompiled sources, content memo,
context cache, library cache and store, and context assignment are all left
unchanged; only the define merge has been applied. -/
theorem c9_amended (fuel : Nat) (st st' : ShaderState) (regl : Vmap)
    (frame : FrameState) (e : JsErr)
    (h : Shader.update fuel st regl frame = (st', some e, false)) :
    st'.vertexShader = st.vertexShader ∧ st'.fragmentShader = st.fragmentShader ∧
    st'.vertexShaderUncompiled = st.vertexShaderUncompiled ∧
    st'.fragmentShaderUncompiled = st.fragmentShaderUncompiled ∧
    st'.shaderCache = st.shaderCache ∧ st'.contextCache = st.contextCache ∧
    st'.lib.cache = st.lib.cache ∧ st'.lib.store = st.lib.store ∧
    st'.injectContextSet = st.injectContextSet := by
  simp only [Shader.update] at h
  split at h
  · split at h
    · exact absurd (congrArg (fun t => t.2.2) h) (by simp)
    · split at h
      · rw [Prod.mk.injEq] at h
        obtain ⟨hst, _⟩ := h
        subst hst
        simp
      · exact absurd (congrArg (fun t => t.2.2) h) (by simp)
      · exact absurd (congrArg (fun t => t.2.1) h) (by simp)
  · split at h
    · exact absurd (congrArg (fun t => t.2.2) h) (by simp)
    · split at h
      · rw [Prod.mk.injEq] at h
        obtain ⟨hst, _⟩ := h
        subst hst
        simp
      · exact absurd (congrArg (fun t => t.2.2) h) (by simp)
      · exact absurd (congrArg (fun t => t.2.1) h) (by simp)

/-- C9, counterexample: when the compile path is already underway (here a
forced frame whose vertex literal changed to "v2"), a throwing fragment
generator propagates its exception but only AFTER the vertex slot has been
recompiled and overwritten — the prior Compiled state is not left
untouched, refuting the claim as stated. -/
theorem c9_counterexample :
    (Shader.update 99 c9StateC [] c9FrameBoom).2.1 = some (.genErr "boom") ∧
    (Shader.update 99 c9StateC [] c9FrameBoom).2.2 = true ∧
    c9StateC.vertexShader = some "precision mediump float;\nv1" ∧
    (Shader.update 99 c9StateC [] c9FrameBoom).1.vertexShader =
      some "precision mediump float;\nv2" ∧
    (Shader.update 99 c9StateC [] c9FrameBoom).1.vertexShader ≠ c9StateC.vertexShader := by
  refine ⟨by decide, by decide, by decide, by decide, by decide⟩

/-- C9, witness: the amended claim applied to an unforced tick whose
fragment generator throws during the dirty check, leaving the Compiled
state untouched. -/
theorem c9_witness :
    ∃ st2 e2, Shader.update 99 c9StateC [] c9FrameCheck = (st2, some e2, false) ∧
      st2.vertexShader = c9StateC.vertexShader ∧
      st2.shaderCache = c9StateC.shaderCache ∧
      st2.lib.cache = c9StateC.lib.cache := by
  have hEq : Shader.update 99 c9StateC [] c9FrameCheck =
      ((Shader.update 99 c9StateC [] c9FrameCheck).1, some (.genErr "boom"), false) := by rfl
  have hA := c9_amended 99 c9StateC (Shader.update 99 c9StateC [] c9FrameCheck).1 []
    c9FrameCheck (.genErr "boom") hEq
  exact ⟨_, _, hEq, hA.1, hA.2.2.2.2.1, hA.2.2.2.2.2.2.1⟩

/-- Unfolding a two-element join. -/
theorem joinChar_cons_cons (sep : Char) (a b : List Char) (L : List (List Char)) :
    joinChar sep (a :: b :: L) = a ++ sep :: joinChar sep (b :: L) := rfl

/-- Joining concatenated segment lists. -/
theorem joinChar_append (sep : Char) (A B : List (List Char)) (hA : A ≠ []) (hB : B ≠ []) :
    joinChar sep (A ++ B) = joinChar sep A ++ sep :: joinChar sep B := by
  induction A with
  | nil => exact absurd rfl hA
  | cons a A' ih =>
    cases A' with
    | nil =>
      cases B with
      | nil => exact absurd rfl hB
      | cons b B' => simp [joinChar]
    | cons a2 A'' =>
      have h2 := ih (by simp)
      simp only [List.cons_append] at h2 ⊢
      rw [joinChar_cons_cons, h2, joinChar_cons_cons]
      simp [List.append_assoc]

/-- Splitting a separator-free list yields that list alone. -/
theorem splitChar_sepfree (sep : Char) (l : List Char) (h : ∀ c ∈ l, ¬(c = sep)) :
    splitChar sep l = [l] := by
  induction l with
  | nil => rfl
  | cons c rest ih =>
    simp only [splitChar, if_neg (h c (List.mem_cons_self c rest))]
    rw [ih (fun c hc => h c (List.mem_cons_of_mem _ hc))]

/-- Splitting past a separator-free prefix. -/
theorem splitChar_append_sep (sep : Char) (a b : List Char) (h : ∀ c ∈ a, ¬(c = sep)) :
    splitChar sep (a ++ sep :: b) = a :: splitChar sep b := by
  induction a with
  | nil => simp [splitChar]
  | cons c a' ih =>
    have hrest := ih (fun x hx => h x (List.mem_cons_of_mem _ hx))
    simp only [List.cons_append, splitChar, if_neg (h c (List.mem_cons_self c a')),
      List.append_eq]
    rw [hrest]

/-- Splitting inverts joining for separator-free parts. -/
theorem splitChar_joinChar (sep : Char) (L : List (List Char)) (hL : L ≠ [])
    (h : ∀ l ∈ L, ∀ c ∈ l, ¬(c = sep)) :
    splitChar sep (joinChar sep L) = L := by
  induction L with
  | nil => exact absurd rfl hL
  | cons l L' ih =>
    cases L' with
    | nil => exact splitChar_sepfree sep l (h l (List.mem_cons_self _ _))
    | cons l2 L'' =>
      rw [joinChar_cons_cons, splitChar_append_sep sep _ _ (h l (List.mem_cons_self _ _))]
      rw [ih (by simp) (fun x hx c hc => h x (List.mem_cons_of_mem _ hx) c hc)]

/-- Path normalization drops empty segments. -/
theorem normSegsAux_skip_empty (acc : List (List Char)) (L : List (List Char)) :
    normSegsAux acc ([] :: L) = normSegsAux acc L := rfl

/-- Path normalization drops `.` segments. -/
theorem normSegsAux_skip_dot (acc : List (List Char)) (L : List (List Char)) :
    normSegsAux acc (['.'] :: L) = normSegsAux acc L := rfl

/-- Path normalization keeps plain segments in order. -/
theorem normSegsAux_good (acc : List (List Char)) (L : List (List Char))
    (h : ∀ l ∈ L, l ≠ [] ∧ l ≠ ['.'] ∧ l ≠ ['.', '.']) :
    normSegsAux acc L = acc ++ L := by
  induction L generalizing acc with
  | nil => simp [normSegsAux]
  | cons l L' ih =>
    obtain ⟨h1, h2, h3⟩ := h l (List.mem_cons_self _ _)
    have hcond : ¬(l = [] ∨ l = ['.']) := fun hor => hor.elim h1 h2
    simp only [normSegsAux, if_neg hcond, if_neg h3]
    rw [ih _ (fun x hx => h x (List.mem_cons_of_mem _ hx))]
    simp

/-- Path normalization over an appended plain prefix. -/
theorem normSegsAux_append_good (acc : List (List Char)) (L1 L2 : List (List Char))
    (h : ∀ l ∈ L1, l ≠ [] ∧ l ≠ ['.'] ∧ l ≠ ['.', '.']) :
    normSegsAux acc (L1 ++ L2) = normSegsAux (acc ++ L1) L2 := by
  induction L1 generalizing acc with
  | nil => simp
  | cons l L' ih =>
    obtain ⟨h1, h2, h3⟩ := h l (List.mem_cons_self _ _)
    have hcond : ¬(l = [] ∨ l = ['.']) := fun hor => hor.elim h1 h2
    simp only [List.cons_append, List.append_eq, normSegsAux, if_neg hcond, if_neg h3]
    rw [ih _ (fun x hx => h x (List.mem_cons_of_mem _ hx))]
    simp

/-- The last element of a non-empty list is a member. -/
theorem getLastD_mem_of_ne_nil (l : List (List Char)) (d : List Char) (h : l ≠ []) :
    l.getLastD d ∈ l := by
  induction l generalizing d with
  | nil => exact absurd rfl h
  | cons x xs ih =>
    cases xs with
    | nil => simp [List.getLastD]
    | cons y ys =>
      rw [List.getLastD_cons]
      exact List.mem_cons_of_mem _ (ih _ (by simp))

/-- Rebuilding a string from its characters. -/
theorem stringMk_data (s : String) : (⟨s.data⟩ : String) = s := by
  cases s
  rfl

/-- `takeWhile` of an everywhere-true predicate. -/
theorem takeWhile_all (p : Char → Bool) (l : List Char) (h : ∀ c ∈ l, p c = true) :
    l.takeWhile p = l := by
  induction l with
  | nil => rfl
  | cons c rest ih =>
    rw [List.takeWhile_cons, if_pos (h c (List.mem_cons_self _ _))]
    rw [ih (fun x hx => h x (List.mem_cons_of_mem _ hx))]

/-- The head of a join headed by a non-empty part. -/
theorem joinChar_head (sep : Char) (x : List Char) (xs : List (List Char)) (hx : x ≠ []) :
    (joinChar sep (x :: xs)).head? = x.head? := by
  cases xs with
  | nil => rfl
  | cons y ys =>
    rw [joinChar_cons_cons, List.head?_append]
    cases x with
    | nil => exact absurd rfl hx
    | cons c t => rfl

/-- What a well-formed path segment gives: non-empty, slash- and
dot-free characters. -/
theorem segOk_spec (s : String) (h : segOk s = true) :
    s.data ≠ [] ∧ ∀ c ∈ s.data, ¬(c = '/') ∧ ¬(c = '.') := by
  simp only [segOk, Bool.and_eq_true, List.all_eq_true] at h
  constructor
  · intro hd
    have hempty : s = "" := by
      cases s
      exact congrArg String.mk hd
    rw [hempty] at h
    exact absurd h (by decide)
  · intro c hc
    have := h.2 c hc
    simp only [Bool.and_eq_true, decide_eq_true_eq] at this
    exact this

/-- Mapping to character data preserves non-emptiness. -/
theorem mapData_ne_nil (l : List String) (h : l ≠ []) : l.map String.data ≠ [] := by
  simp [h]

/-- Well-formed segments normalize as plain segments. -/
theorem segsD_good (segs : List String) (hsegs : ∀ x ∈ segs, segOk x = true) :
    ∀ l ∈ segs.map String.data, l ≠ [] ∧ l ≠ ['.'] ∧ l ≠ ['.', '.'] := by
  intro l hl
  obtain ⟨x, hx, hxl⟩ := List.mem_map.mp hl
  obtain ⟨hne, hchars⟩ := segOk_spec x (hsegs x hx)
  subst hxl
  refine ⟨hne, ?_, ?_⟩
  · intro he
    exact (hchars '.' (he ▸ List.mem_cons_self _ _)).2 rfl
  · intro he
    exact (hchars '.' (he ▸ List.mem_cons_self _ _)).2 rfl

/-- Well-formed segments contain no slashes. -/
theorem segsD_sepfree (segs : List String) (hsegs : ∀ x ∈ segs, segOk x = true) :
    ∀ l ∈ segs.map String.data, ∀ c ∈ l, ¬(c = '/') := by
  intro l hl c hc
  obtain ⟨x, hx, hxl⟩ := List.mem_map.mp hl
  subst hxl
  exact ((segOk_spec x (hsegs x hx)).2 c hc).1

/-- Well-formed segments contain no dots. -/
theorem segsD_dotfree (segs : List String) (hsegs : ∀ x ∈ segs, segOk x = true) :
    ∀ l ∈ segs.map String.data, ∀ c ∈ l, ¬(c = '.') := by
  intro l hl c hc
  obtain ⟨x, hx, hxl⟩ := List.mem_map.mp hl
  subst hxl
  exact ((segOk_spec x (hsegs x hx)).2 c hc).2

/-- The characters of a dot-slash-prefixed joined path. -/
theorem joinPath_dotP_data (segs : List String) (hs : segs ≠ []) :
    ("./" ++ joinPath segs).data = joinChar '/' (['.'] :: segs.map String.data) := by
  cases hm : segs.map String.data with
  | nil => exact absurd (by simpa using hm) hs
  | cons d0 rest =>
    rw [String.data_append, joinChar_cons_cons]
    simp only [joinPath, hm]
    rfl

/-- A dot-free basename has no extension. -/
theorem extOfBase_dotfree (base : List Char) (h : ∀ c ∈ base, ¬(c = '.')) :
    extOfBase base = "" := by
  unfold extOfBase
  rw [if_neg ?hne1]
  case hne1 =>
    intro hor
    rcases hor with he | he
    · exact h '.' (he ▸ List.mem_cons_self _ _) rfl
    · exact h '.' (he ▸ List.mem_cons_self _ _) rfl
  rw [takeWhile_all _ _ ?tw]
  case tw =>
    intro c hc
    simp only [decide_eq_true_eq]
    exact fun he => h c (List.mem_reverse.mp hc) he
  rw [if_pos rfl]

/-- `path.extname` of a dot-slash-prefixed well-formed path is empty. -/
theorem extname_dotP (segs : List String) (hsegs : ∀ x ∈ segs, segOk x = true)
    (hs : segs ≠ []) :
    jsExtname ("./" ++ joinPath segs) = "" := by
  have hsD := mapData_ne_nil segs hs
  have hsplit : splitChar '/' (("./" ++ joinPath segs).data) =
      ['.'] :: segs.map String.data := by
    rw [joinPath_dotP_data segs hs]
    refine splitChar_joinChar '/' _ (by simp) ?_
    intro l hl
    rcases List.mem_cons.mp hl with he | hm
    · subst he
      intro c hc
      rcases List.mem_singleton.mp hc with rfl
      decide
    · exact segsD_sepfree segs hsegs l hm
  have hbase : (splitChar '/' (("./" ++ joinPath segs).data)).getLastD [] ∈
      segs.map String.data := by
    rw [hsplit, List.getLastD_cons]
    exact getLastD_mem_of_ne_nil _ _ hsD
  have hdotfree := segsD_dotfree segs hsegs _ hbase
  exact extOfBase_dotfree _ hdotfree

/-- Replacing the empty pattern by nothing is the identity. -/
theorem jsReplaceFirst_empty (s : String) : jsReplaceFirst s "" "" = s := rfl

/-- Splitting two leading slashes. -/
theorem splitChar_slash_slash (J : List Char) :
    splitChar '/' ('/' :: '/' :: J) = [] :: [] :: splitChar '/' J := rfl

/-- `ShaderLib.resolve` on a quoted-form include: `./p` resolved against
the including file's directory lands at `dir/p`, for every well-formed
directory and path. -/
theorem resolve_quoted (dir segs : List String)
    (hdir : ∀ x ∈ dir, segOk x = true) (hsegs : ∀ x ∈ segs, segOk x = true)
    (hd : dir ≠ []) (hs : segs ≠ []) :
    shaderLibResolve ("./" ++ joinPath segs) (joinPath dir) = joinPath (dir ++ segs) := by
  have hdD := mapData_ne_nil dir hd
  have hsD := mapData_ne_nil segs hs
  have hdirGood := segsD_good dir hdir
  have hsegsGood := segsD_good segs hsegs
  have hdirSep := segsD_sepfree dir hdir
  have hsegsSep := segsD_sepfree segs hsegs
  -- the root made absolute
  have hrootHead : ¬((joinPath dir).data.head? = some '/') := by
    cases hm : dir.map String.data with
    | nil => exact absurd hm hdD
    | cons d0 rest =>
      have hd0 : d0 ∈ dir.map String.data := hm ▸ List.mem_cons_self _ _
      have hd0ne : d0 ≠ [] := (hdirGood d0 hd0).1
      have : (joinPath dir).data = joinChar '/' (d0 :: rest) := by
        simp [joinPath, hm]
      rw [this, joinChar_head '/' d0 rest hd0ne]
      cases d0 with
      | nil => exact absurd rfl hd0ne
      | cons c t =>
        intro hcontra
        rw [List.head?_cons, Option.some.injEq] at hcontra
        exact hdirSep _ hd0 c (List.mem_cons_self _ _) hcontra
  have hR2 : posixResolve2 "/" (joinPath dir) =
      ⟨'/' :: joinChar '/' (dir.map String.data)⟩ := by
    unfold posixResolve2
    rw [if_neg hrootHead]
    unfold normAbsChars
    have hdata : ("/" : String).data ++ '/' :: (joinPath dir).data =
        '/' :: '/' :: joinChar '/' (dir.map String.data) := by
      simp [joinPath]
    rw [hdata, splitChar_slash_slash,
      splitChar_joinChar '/' _ hdD hdirSep,
      normSegsAux_skip_empty, normSegsAux_skip_empty,
      normSegsAux_good [] _ hdirGood]
    rfl
  -- the path keeps its text (no extension)
  have hPHead : ¬(("./" ++ joinPath segs).data.head? = some '/') := by
    rw [joinPath_dotP_data segs hs, joinChar_head '/' ['.'] _ (by simp)]
    decide
  have hfinal : (posixResolve2 ⟨'/' :: joinChar '/' (dir.map String.data)⟩
      ("./" ++ joinPath segs)).data =
      '/' :: joinChar '/' (dir.map String.data ++ segs.map String.data) := by
    unfold posixResolve2
    rw [if_neg hPHead]
    unfold normAbsChars
    have hdata : ('/' :: joinChar '/' (dir.map String.data)) ++ '/' ::
        ("./" ++ joinPath segs).data =
        '/' :: joinChar '/' (dir.map String.data ++ ['.'] :: segs.map String.data) := by
      rw [joinPath_dotP_data segs hs,
        joinChar_append '/' (dir.map String.data) (['.'] :: segs.map String.data) hdD
          (by simp)]
      rfl
    rw [hdata]
    have hsplit : splitChar '/' ('/' :: joinChar '/'
        (dir.map String.data ++ ['.'] :: segs.map String.data)) =
        [] :: (dir.map String.data ++ ['.'] :: segs.map String.data) := by
      have : ('/' : Char) = '/' := rfl
      show splitChar '/' ('/' :: _) = _
      rw [show splitChar '/' ('/' :: joinChar '/'
          (dir.map String.data ++ ['.'] :: segs.map String.data)) =
          [] :: splitChar '/' (joinChar '/'
            (dir.map String.data ++ ['.'] :: segs.map String.data)) from rfl]
      rw [splitChar_joinChar '/' _ (by simp) ?sf]
      case sf =>
        intro l hl
        rcases List.mem_append.mp hl with hm | hm
        · exact hdirSep l hm
        · rcases List.mem_cons.mp hm with he | hm2
          · subst he
            intro c hc
            rcases List.mem_singleton.mp hc with rfl
            decide
          · exact hsegsSep l hm2
    rw [hsplit, normSegsAux_skip_empty,
      normSegsAux_append_good [] _ _ hdirGood,
      List.nil_append, normSegsAux_skip_dot,
      normSegsAux_good _ _ hsegsGood]
  unfold shaderLibResolve
  rw [extname_dotP segs hsegs hs, jsReplaceFirst_empty, hR2, hfinal]
  simp only [List.drop_succ_cons, List.drop_zero]
  simp [joinPath]

/-- `ShaderLib.resolve` on an angle-form include: `./p` resolved against
the Store root lands at `p`, wherever the including file lives. -/
theorem resolve_angle (segs : List String)
    (hsegs : ∀ x ∈ segs, segOk x = true) (hs : segs ≠ []) :
    shaderLibResolve ("./" ++ joinPath segs) "/" = joinPath segs := by
  have hsD := mapData_ne_nil segs hs
  have hsegsGood := segsD_good segs hsegs
  have hsegsSep := segsD_sepfree segs hsegs
  have hPHead : ¬(("./" ++ joinPath segs).data.head? = some '/') := by
    rw [joinPath_dotP_data segs hs, joinChar_head '/' ['.'] _ (by simp)]
    decide
  have hR2 : posixResolve2 "/" "/" = ("/" : String) := rfl
  have hfinal : (posixResolve2 "/" ("./" ++ joinPath segs)).data =
      '/' :: joinChar '/' (segs.map String.data) := by
    unfold posixResolve2
    rw [if_neg hPHead]
    unfold normAbsChars
    have hdata : ("/" : String).data ++ '/' :: ("./" ++ joinPath segs).data =
        '/' :: '/' :: joinChar '/' (['.'] :: segs.map String.data) := by
      rw [joinPath_dotP_data segs hs]
      rfl
    rw [hdata, splitChar_slash_slash, splitChar_joinChar '/' _ (by simp) ?sf]
    case sf =>
      intro l hl
      rcases List.mem_cons.mp hl with he | hm
      · subst he
        intro c hc
        rcases List.mem_singleton.mp hc with rfl
        decide
      · exact hsegsSep l hm
    rw [normSegsAux_skip_empty, normSegsAux_skip_empty, normSegsAux_skip_dot,
      normSegsAux_good [] _ hsegsGood]
    rfl
  unfold shaderLibResolve
  rw [extname_dotP segs hsegs hs, jsReplaceFirst_empty, hR2, hfinal]
  simp only [List.drop_succ_cons, List.drop_zero]
  simp [joinPath]

/-- C5: quoted includes resolve relative to the including file's directory
(`./p` from a fragment whose registered path has directory `dir` lands at
`dir/p`, for every well-formed directory and path — a bare name gets the
`./` prefix and follows the same rule), while angle-bracket includes
resolve against the Store root regardless of the including file's
location; concretely, `./foo` and bare `bare` from `mat/flat` splice
`mat/foo`/`mat/bare` (not the Store-root decoys), `<light/ambient>`
splices `light/ambient` (not `mat/light/ambient`), and a quoted include
inside a fragment that is itself reached through an angle include
resolves against that fragment's own directory (`light/common`, not the
root decoy `common`), because each included fragment is compiled under its
registered path. -/
theorem c5_include_resolution :
    (∀ dir segs, (∀ x ∈ dir, segOk x = true) → (∀ x ∈ segs, segOk x = true) →
      dir ≠ [] → segs ≠ [] →
      shaderLibResolve ("./" ++ joinPath segs) (joinPath dir) = joinPath (dir ++ segs)) ∧
    (∀ segs, (∀ x ∈ segs, segOk x = true) → segs ≠ [] →
      shaderLibResolve ("./" ++ joinPath segs) "/" = joinPath segs) ∧
    (shaderLibResolve "./foo" "mat" = "mat/foo" ∧
      shaderLibResolve "./light/ambient" "/" = "light/ambient" ∧
      shaderLibResolve "./bare" "mat" = "mat/bare" ∧
      jsDirname "mat/flat" = "mat") ∧
    compiledTextOf (ShaderLib.get 99 c5Lib "mat/flat") =
      some "precision mediump float;\nFOO_BODY\nAMB_BODY\nBARE_BODY\n" ∧
    compiledTextOf
        (ShaderLib.compile 99 c5NestLib (some "root") (some "#include <light/ambient>")) =
      some "precision mediump float;\nC_LIGHT\n" :=
  ⟨resolve_quoted, resolve_angle,
    ⟨by decide, by decide, by decide, by decide⟩, by decide, by decide⟩

/-- C5, witness: the general resolution rules applied to the concrete
segments of the claim's examples. -/
theorem c5_witness :
    (segOk "mat" = true ∧ segOk "foo" = true ∧
      segOk "light" = true ∧ segOk "ambient" = true) ∧
    shaderLibResolve ("./" ++ joinPath ["foo"]) (joinPath ["mat"]) =
      joinPath ["mat", "foo"] ∧
    shaderLibResolve ("./" ++ joinPath ["light", "ambient"]) "/" =
      joinPath ["light", "ambient"] :=
  ⟨⟨by decide, by decide, by decide, by decide⟩,
    c5_include_resolution.1 ["mat"] ["foo"] (by decide) (by decide) (by decide) (by decide),
    c5_include_resolution.2.1 ["light", "ambient"] (by decide) (by decide)⟩
